import Mathlib

/-! # Fiat-to-crypto payment gateway: the purchase pipeline of `main.go`

A shallow embedding of `convertIDRToUSD`, `buyCrypto`, `buyNFTTicket` and `handler`.

* Go's `float64` is embedded as `Float64`: NaN, the two infinities, and signed dyadic
  numbers `mant * 2 ^ exp`.  Division, decimal-to-binary conversion and `%.6f` formatting are
  computed exactly on natural numbers and rounded to nearest, ties to even, as IEEE-754
  binary64 and Go's `strconv` do.
* The remote services are a `World`: for every request the program can send, either a
  transport error or a response (status code and body).  Every stage returns its Go result
  together with the list of `Event`s (stage entries and HTTP requests) it performed.
* A Go `panic` is a third kind of result, next to a value and an `error`.
* Left out, because no result depends on them: the credentials read from the environment and
  sent as headers, the constant parts of the requests, the log lines, and the closing of
  response bodies.  `http.NewRequest` is called on constant methods and URLs and cannot fail.
-/

namespace PaymentGateway

/-! ## float64 -/

/-- Go's `float64`.  `fin neg mant exp` is the number `(-1) ^ neg * mant * 2 ^ exp`; the
zeros are `fin false 0 _` and `fin true 0 _`. -/
inductive Float64 where
  | nan
  | inf (neg : Bool)
  | fin (neg : Bool) (mant : Nat) (exp : Int)
  deriving DecidableEq, Repr

/-- The rational number a `float64` denotes; NaN and the infinities denote none. -/
def Float64.toRat : Float64 → Option ℚ
  | .nan => none
  | .inf _ => none
  | .fin neg mant exp => some ((if neg then -1 else 1) * (mant : ℚ) * (2 : ℚ) ^ exp)

/-- A finite number strictly above zero. -/
def Float64.isPos : Float64 → Bool
  | .fin false mant _ => decide (0 < mant)
  | _ => false

/-- Plus or minus zero. -/
def Float64.isZero : Float64 → Bool
  | .fin _ mant _ => decide (mant = 0)
  | _ => false

/-- Neither NaN nor an infinity. -/
def Float64.isFinite : Float64 → Bool
  | .fin _ _ _ => true
  | _ => false

/-- Floor of the binary logarithm, by repeated halving (`fuel` bounds the number of halvings). -/
def log2Fuel : Nat → Nat → Nat
  | 0, _ => 0
  | fuel + 1, n => if 2 ≤ n then log2Fuel fuel (n / 2) + 1 else 0

/-- Floor of the binary logarithm of `n` (`0` for `n = 0`). -/
def ilog2 (n : Nat) : Nat := log2Fuel n n

/-- The fraction `(n / d) / 2 ^ e` as a numerator and a denominator. -/
def scaleByPow2 (n d : Nat) (e : Int) : Nat × Nat :=
  match e with
  | Int.ofNat k => (n, d * 2 ^ k)
  | Int.negSucc k => (n * 2 ^ (k + 1), d)

/-- Floor of the binary logarithm of the fraction `n / d`, for `n, d > 0`. -/
def floorLog2Ratio (n d : Nat) : Int :=
  let k : Int := (ilog2 n : Int) - (ilog2 d : Int)
  let s := scaleByPow2 n d k
  if s.2 ≤ s.1 then k else k - 1

/-- The integer nearest to `n / d`, ties to the even one. -/
def roundHalfEven (n d : Nat) : Nat :=
  let q := n / d
  let r := n % d
  if 2 * r < d then q
  else if d < 2 * r then q + 1
  else if q % 2 = 0 then q else q + 1

/-- IEEE-754 round-to-nearest-even of the fraction `n / d` (with sign `neg`) to binary64:
53 significant bits, gradual underflow below `2 ^ (-1022)`, overflow to infinity from
`2 ^ 1024 - 2 ^ 970` on. -/
def roundToFloat64 (neg : Bool) (n d : Nat) : Float64 :=
  if n = 0 then .fin neg 0 (-1074)
  else
    let e : Int := max (floorLog2Ratio n d - 52) (-1074)
    let s := scaleByPow2 n d e
    let m := roundHalfEven s.1 s.2
    if m = 2 ^ 53 then
      (if 971 < e + 1 then .inf neg else .fin neg (2 ^ 52) (e + 1))
    else
      (if 971 < e then .inf neg else .fin neg m e)

/-- Go's `/` on `float64` (`quantity := usdAmount / bitcoinPrice`): IEEE-754 division.  It
never panics: a zero divisor gives an infinity, or NaN for `0 / 0`. -/
def Float64.div : Float64 → Float64 → Float64
  | .nan, _ => .nan
  | _, .nan => .nan
  | .inf _, .inf _ => .nan
  | .inf s, .fin t _ _ => .inf (xor s t)
  | .fin s _ _, .inf t => .fin (xor s t) 0 (-1074)
  | .fin s m e, .fin t m2 e2 =>
    if m2 = 0 then (if m = 0 then .nan else .inf (xor s t))
    else
      let a := scaleByPow2 m 1 (-e)
      let b := scaleByPow2 m2 1 (-e2)
      roundToFloat64 (xor s t) (a.1 * b.2) (a.2 * b.1)

/-! ## `fmt.Sprintf("%.6f", x)` -/

/-- The decimal digit character of `d % 10`. -/
def digitChar (d : Nat) : Char := Char.ofNat (48 + d % 10)

/-- Decimal digits of `n`, most significant first, pushed in front of `acc`. -/
def natDigitsFuel : Nat → Nat → List Char → List Char
  | 0, _, acc => acc
  | fuel + 1, n, acc =>
    if n < 10 then digitChar n :: acc
    else natDigitsFuel fuel (n / 10) (digitChar n :: acc)

/-- Decimal digits of `n` without leading zeros (`0` is the single digit `0`). -/
def natDigits (n : Nat) : List Char := natDigitsFuel (n + 1) n []

/-- The last `k` decimal digits of `n`, zero-padded on the left. -/
def fixedDigits : Nat → Nat → List Char
  | 0, _ => []
  | k + 1, n => fixedDigits k (n / 10) ++ [digitChar n]

/-- The magnitude `mant * 2 ^ exp` in millionths, rounded half-to-even: the digits `%.6f`
prints, as one natural number. -/
def microUnits (mant : Nat) (exp : Int) : Nat :=
  let s := scaleByPow2 (mant * 10 ^ 6) 1 (-exp)
  roundHalfEven s.1 s.2

/-- Go's `fmt.Sprintf("%.6f", x)`.  `strconv` converts the binary value to decimal exactly
and rounds it half-to-even at the sixth fractional digit; infinities and NaN print as
`+Inf`, `-Inf` and `NaN`. -/
def sprintfF6 : Float64 → String
  | .nan => "NaN"
  | .inf false => "+Inf"
  | .inf true => "-Inf"
  | .fin neg mant exp =>
    let u := microUnits mant exp
    String.mk ((if neg then ['-'] else []) ++ natDigits (u / 10 ^ 6)
      ++ '.' :: fixedDigits 6 (u % 10 ^ 6))

/-! ## `strconv.ParseFloat(s, 64)` -/

/-- The two errors of `strconv`: `ErrSyntax` and `ErrRange`. -/
inductive NumError where
  | malformed
  | outOfRange
  deriving DecidableEq, Repr

/-- Correctly rounded binary64 value of `mant * 10 ^ exp10`; a value that rounds to an
infinity is `ErrRange`, one that rounds to zero is a zero without error. -/
def roundDecimal (neg : Bool) (mant : Nat) (exp10 : Int) : Except NumError Float64 :=
  let s : Nat × Nat :=
    match exp10 with
    | Int.ofNat k => (mant * 10 ^ k, 1)
    | Int.negSucc k => (mant, 10 ^ (k + 1))
  match roundToFloat64 neg s.1 s.2 with
  | .fin n m e => .ok (.fin n m e)
  | _ => .error .outOfRange

/-- Correctly rounded binary64 value of `mant * 2 ^ exp2` (hexadecimal literals). -/
def roundBinary (neg : Bool) (mant : Nat) (exp2 : Int) : Except NumError Float64 :=
  let s := scaleByPow2 mant 1 (-exp2)
  match roundToFloat64 neg s.1 s.2 with
  | .fin n m e => .ok (.fin n m e)
  | _ => .error .outOfRange

/-- ASCII lower-casing of a letter, `c` itself otherwise. -/
def lowerAscii (c : Char) : Char :=
  if 65 ≤ c.toNat ∧ c.toNat ≤ 90 then Char.ofNat (c.toNat + 32) else c

/-- Length of the longest common start of `s` and the lower-case word `w`, ignoring the case
of `s` (`commonPrefixLenIgnoreCase`). -/
def commonLenIgnoreCase : List Char → List Char → Nat
  | c :: cs, p :: ps => if lowerAscii c = p then commonLenIgnoreCase cs ps + 1 else 0
  | _, _ => 0

/-- The word `special` recognises at the start of `s`: the value and the number of characters
consumed.  An optional sign followed by `inf` or `infinity`, or an unsigned `nan`. -/
def special (s : List Char) : Option (Float64 × Nat) :=
  let infLen (t : List Char) : Option Nat :=
    let n := commonLenIgnoreCase t "infinity".toList
    let n := if 3 < n ∧ n < 8 then 3 else n
    if n = 3 ∨ n = 8 then some n else none
  match s with
  | [] => none
  | c :: cs =>
    if c = '+' then (infLen cs).map (fun n => (Float64.inf false, n + 1))
    else if c = '-' then (infLen cs).map (fun n => (Float64.inf true, n + 1))
    else if c = 'i' ∨ c = 'I' then (infLen s).map (fun n => (Float64.inf false, n))
    else if c = 'n' ∨ c = 'N' then
      (if commonLenIgnoreCase s "nan".toList = 3 then some (Float64.nan, 3) else none)
    else none

/-- State of the digit loop of `readFloat`. -/
structure DigitScan where
  mant : Nat := 0
  nd : Nat := 0
  dp : Int := 0
  sawdot : Bool := false
  sawdigits : Bool := false
  underscores : Bool := false
  deriving DecidableEq, Repr

/-- A decimal digit and its value. -/
def decDigit? (c : Char) : Option Nat :=
  if 48 ≤ c.toNat ∧ c.toNat ≤ 57 then some (c.toNat - 48) else none

/-- A hexadecimal letter `a..f`, `A..F` and its value. -/
def hexLetter? (c : Char) : Option Nat :=
  if 97 ≤ c.toNat ∧ c.toNat ≤ 102 then some (c.toNat - 87)
  else if 65 ≤ c.toNat ∧ c.toNat ≤ 70 then some (c.toNat - 55)
  else none

/-- The digit loop of `readFloat`: mantissa digits, at most one point, underscores.  Returns the
state and the unread rest.  All digits are accumulated, so the mantissa is exact. -/
def scanDigits (hex : Bool) : List Char → DigitScan → DigitScan × List Char
  | [], st => (st, [])
  | c :: cs, st =>
    let base : Nat := if hex then 16 else 10
    if c = '_' then scanDigits hex cs { st with underscores := true }
    else if c = '.' then
      (if st.sawdot then (st, c :: cs)
       else scanDigits hex cs { st with sawdot := true, dp := st.nd })
    else
      match decDigit? c with
      | some v =>
        if v = 0 ∧ st.nd = 0 then
          scanDigits hex cs { st with sawdigits := true, dp := st.dp - 1 }
        else
          scanDigits hex cs
            { st with sawdigits := true, nd := st.nd + 1, mant := st.mant * base + v }
      | none =>
        match (if hex then hexLetter? c else none) with
        | some v =>
          scanDigits hex cs
            { st with sawdigits := true, nd := st.nd + 1, mant := st.mant * base + v }
        | none => (st, c :: cs)

/-- The exponent digit loop of `readFloat`: digits and underscores; the value stops growing
once it has reached `10000`.  Returns the value, whether an underscore was seen, the rest. -/
def scanExpDigits : List Char → Nat → Bool → Nat × Bool × List Char
  | [], e, u => (e, u, [])
  | c :: cs, e, u =>
    if c = '_' then scanExpDigits cs e true
    else
      match decDigit? c with
      | some v => scanExpDigits cs (if e < 10000 then e * 10 + v else e) u
      | none => (e, u, c :: cs)

/-- Last character class seen by `underscoreOK`. -/
inductive Seen where
  | start
  | digit
  | underscore
  | other
  deriving DecidableEq, Repr

/-- The loop of `underscoreOK`: an underscore must follow a digit (or the base marker) and be
followed by a digit. -/
def underscoreLoop (hex : Bool) : List Char → Seen → Bool
  | [], seen => decide (seen ≠ Seen.underscore)
  | c :: cs, seen =>
    if (decDigit? c).isSome ∨ (hex ∧ (hexLetter? c).isSome) then underscoreLoop hex cs .digit
    else if c = '_' then
      (if seen = Seen.digit then underscoreLoop hex cs .underscore else false)
    else if seen = Seen.underscore then false
    else underscoreLoop hex cs .other

/-- Go's `underscoreOK`: underscores only separate digits. -/
def underscoreOK (s : List Char) : Bool :=
  let s := match s with
    | c :: cs => if c = '-' ∨ c = '+' then cs else s
    | [] => s
  match s with
  | c0 :: c1 :: rest =>
    if c0 = '0' ∧ (lowerAscii c1 = 'b' ∨ lowerAscii c1 = 'o' ∨ lowerAscii c1 = 'x') then
      underscoreLoop (decide (lowerAscii c1 = 'x')) rest .digit
    else underscoreLoop false s .start
  | _ => underscoreLoop false s .start

/-- The part of `readFloat` after the sign: digits, then the exponent; the whole input must
be consumed, as `ParseFloat` demands. -/
def readMagnitude (neg : Bool) (whole body : List Char) : Except NumError Float64 :=
  let hex : Bool :=
    match body with
    | c0 :: c1 :: _ :: _ => decide (c0 = '0' ∧ lowerAscii c1 = 'x')
    | _ => false
  let digits := if hex then body.drop 2 else body
  let (st, rest) := scanDigits hex digits {}
  if ¬ st.sawdigits then .error .malformed
  else
    let dp : Int := if st.sawdot then st.dp else st.nd
    let dp : Int := if hex then dp * 4 else dp
    let nd : Int := if hex then (st.nd : Int) * 4 else st.nd
    let finish (exp : Int) (underscores : Bool) (rest : List Char) : Except NumError Float64 :=
      if rest ≠ [] then .error .malformed
      else if underscores ∧ ¬ underscoreOK whole then .error .malformed
      else if hex then roundBinary neg st.mant exp
      else roundDecimal neg st.mant exp
    match rest with
    | c :: cs =>
      if lowerAscii c = (if hex then 'p' else 'e') then
        let (esign, ds) : Int × List Char :=
          match cs with
          | d :: ds => if d = '+' then (1, ds) else if d = '-' then (-1, ds) else (1, cs)
          | [] => (1, [])
        match ds with
        | d :: _ =>
          if (decDigit? d).isSome then
            let (e, u, rest2) := scanExpDigits ds 0 st.underscores
            finish (dp + (e : Int) * esign - nd) u rest2
          else .error .malformed
        | [] => .error .malformed
      else if hex then .error .malformed
      else finish (dp - nd) st.underscores rest
    | [] =>
      if hex then .error .malformed
      else finish (dp - nd) st.underscores rest

/-- Go's `strconv.ParseFloat(s, 64)`: the special words, then a decimal or hexadecimal number
converted to the nearest binary64 value.  An error is `ErrSyntax` or `ErrRange`. -/
def ParseFloat (s : String) : Except NumError Float64 :=
  let cs := s.toList
  match special cs with
  | some (v, n) => if n = cs.length then .ok v else .error .malformed
  | none =>
    match cs with
    | [] => .error .malformed
    | c :: rest =>
      if c = '+' then readMagnitude false cs rest
      else if c = '-' then readMagnitude true cs rest
      else readMagnitude false cs cs

/-! ## JSON bodies and `json.Unmarshal` into `map[string]interface{}` -/

/-- A JSON document.  A number carries the value of its literal,
`(-1) ^ neg * mant * 10 ^ exp10`. -/
inductive Json where
  | null
  | bool (b : Bool)
  | num (neg : Bool) (mant : Nat) (exp10 : Int)
  | str (s : String)
  | arr (items : List Json)
  | obj (members : List (String × Json))

/-- The bytes of an HTTP body as `json.Unmarshal` sees them: `some j` when they are the JSON
text `j`, `none` when they are not JSON at all (an empty or truncated body included). -/
abbrev Body := Option Json

/-- The map left in `result` by `var result map[string]interface{}; json.Unmarshal(body, &result)`
(the error of `Unmarshal` is dropped by the program): the members of a JSON object in document
order; the nil map, which has no keys, for anything else. -/
def jsonUnmarshal : Body → List (String × Json)
  | some (.obj members) => members
  | _ => []

/-- Go's `m[key]` on the decoded map: the member decoded last under `key`; `none` is the nil
interface of a missing key. -/
def mapIndex (m : List (String × Json)) (key : String) : Option Json :=
  m.reverse.lookup key

/-- The type assertion `v.(float64)` with its `ok` flag.  Only a JSON number decodes to a
`float64` (through `strconv.ParseFloat`); a literal out of range leaves the nil interface. -/
def asFloat64 : Option Json → Option Float64
  | some (.num neg mant exp10) =>
    match roundDecimal neg mant exp10 with
    | .ok x => some x
    | .error _ => none
  | _ => none

/-- The type assertion `v.(string)` with its `ok` flag: only a JSON string is a `string`. -/
def asString : Option Json → Option String
  | some (.str s) => some s
  | _ => none

/-- Name of the dynamic type of a decoded value, as the runtime prints it. -/
def dynamicType : Option Json → String
  | some (.bool _) => "bool"
  | some (.num neg mant exp10) =>
    match roundDecimal neg mant exp10 with
    | .ok _ => "float64"
    | .error _ => "nil"
  | some (.str _) => "string"
  | some (.arr _) => "[]interface \x7b\x7d"
  | some (.obj _) => "map[string]interface \x7b\x7d"
  | _ => "nil"

/-- What `json.Marshal` can encode of a `float64` field: NaN and the infinities make `Marshal`
fail, and the program, which drops that error, then sends an empty body (`none`). -/
def jsonMarshalAmount (x : Float64) : Option Float64 :=
  if x.isFinite then some x else none

/-! ## The remote services and the results of a stage -/

/-- An HTTP response: status code and body. -/
structure Response where
  status : Nat
  body : Body

/-- What `client.Do` and `http.Get` return: a transport error or a response.  A response with
a non-2xx status is a response, not an error. -/
abbrev HttpResult := Except String Response

/-- The services the program talks to, as functions of what it sends them. -/
structure World where
  /-- The answer to `POST https://api.transferwise.com/v1/quotes`, by the `sourceAmount`
  sent. -/
  wise : Option Float64 → HttpResult
  /-- The answer to `GET https://api.binance.com/api/v3/ticker/price?symbol=BTCUSDT`. -/
  ticker : HttpResult
  /-- The answer to `POST https://api.binance.com/api/v3/order`, by the `quantity` sent (with
  `symbol=BTCUSDT`, `side=BUY`, `type=MARKET`). -/
  order : String → HttpResult
  /-- The answer to `POST https://api.nftmarketplace.com/buy_ticket`, by the `cryptoAmount`
  sent. -/
  market : Option Float64 → HttpResult

/-- What the program does that can be observed from outside a function: entering a stage (with
its argument) and sending an HTTP request (with the varying part of its content). -/
inductive Event where
  | convertIDRToUSD (amountIDR : Float64)
  | wisePost (sourceAmount : Option Float64)
  | buyCrypto (usdAmount : Float64)
  | tickerGet
  | orderPost (quantity : String)
  | buyNFTTicket (cryptoAmount : Float64)
  | ticketPost (cryptoAmount : Option Float64)
  deriving DecidableEq, Repr

/-- How a Go function of type `(T, error)` ends: a value with a nil error, a non-nil error, or
a run-time panic. -/
inductive Result (α : Type) where
  | ok (value : α)
  | err (msg : String)
  | panic (msg : String)
  deriving DecidableEq, Repr

/-! ## The three stages -/

/-- Go's `convertIDRToUSD`.  `http.NewRequest` cannot fail on the constant method and URL. -/
def convertIDRToUSD (w : World) (amountIDR : Float64) : Result Float64 × List Event :=
  let requestBody := jsonMarshalAmount amountIDR
  let trace := [Event.convertIDRToUSD amountIDR, Event.wisePost requestBody]
  match w.wise requestBody with
  | .error e => (.err e, trace)
  | .ok resp =>
    let result := jsonUnmarshal resp.body
    match asFloat64 (mapIndex result "targetAmount") with
    | none => (.err "failed to get targetAmount from Wise API response", trace)
    | some targetAmount => (.ok targetAmount, trace)

/-- Go's `buyCrypto`.  The assertion `priceData["price"].(string)` has no `ok` flag: on
anything but a string it panics.  The text of the `ParseFloat` error, which no caller shows,
is abridged. -/
def buyCrypto (w : World) (usdAmount : Float64) : Result String × List Event :=
  let trace := [Event.buyCrypto usdAmount, Event.tickerGet]
  match w.ticker with
  | .error e => (.err e, trace)
  | .ok resp =>
    let priceData := jsonUnmarshal resp.body
    match asString (mapIndex priceData "price") with
    | none =>
      (.panic ("interface conversion: interface \x7b\x7d is "
        ++ dynamicType (mapIndex priceData "price") ++ ", not string"), trace)
    | some price =>
      match ParseFloat price with
      | .error _ => (.err "strconv.ParseFloat: parsing error", trace)
      | .ok bitcoinPrice =>
        let quantity := Float64.div usdAmount bitcoinPrice
        let q := sprintfF6 quantity
        let trace := trace ++ [Event.orderPost q]
        match w.order q with
        | .error e => (.err e, trace)
        | .ok resp =>
          let result := jsonUnmarshal resp.body
          match asString (mapIndex result "orderId") with
          | none => (.err "failed to get orderId from Binance API response", trace)
          | some orderId => (.ok orderId, trace)

/-- Go's `buyNFTTicket`. -/
def buyNFTTicket (w : World) (cryptoAmount : Float64) : Result String × List Event :=
  let requestBody := jsonMarshalAmount cryptoAmount
  let trace := [Event.buyNFTTicket cryptoAmount, Event.ticketPost requestBody]
  match w.market requestBody with
  | .error e => (.err e, trace)
  | .ok resp =>
    let result := jsonUnmarshal resp.body
    match asString (mapIndex result "transactionHash") with
    | none => (.err "failed to get transactionHash from NFT marketplace response", trace)
    | some transactionHash => (.ok transactionHash, trace)

/-! ## The handler -/

/-- The inbound request: its method and what `ioutil.ReadAll(r.Body)` returns. -/
structure Request where
  method : String
  body : Except String Body

/-- What the handler writes: the text of `http.Error` or the JSON of `json.Marshal`. -/
inductive Payload where
  | text (s : String)
  | json (j : Json)

/-- The reply to the client. -/
structure Reply where
  status : Nat
  contentType : String
  payload : Payload

/-- How a run of the handler ends: with a reply, or aborted by a panic (the server recovers
it and closes the connection without a reply). -/
inductive Outcome where
  | reply (r : Reply)
  | aborted (msg : String)

/-- Go's `http.Error(w, msg, code)`. -/
def httpError (msg : String) (code : Nat) : Outcome :=
  .reply ⟨code, "text/plain; charset=utf-8", .text (msg ++ "\n")⟩

/-- The body of the success reply: `json.Marshal` of the map with keys `success` and
`transactionHash`. -/
def successJson (transactionHash : String) : Json :=
  .obj [("success", .bool true), ("transactionHash", .str transactionHash)]

/-- Go's `handler` (the calls to `log.Printf` are left out). -/
def handler (w : World) (r : Request) : Outcome × List Event :=
  if r.method ≠ "POST" then (httpError "Invalid request method" 405, [])
  else
    match r.body with
    | .error _ => (httpError "Error reading request body" 400, [])
    | .ok body =>
      let requestBody := jsonUnmarshal body
      match asFloat64 (mapIndex requestBody "amountIDR") with
      | none => (httpError "Invalid amountIDR" 400, [])
      | some amountIDR =>
        match convertIDRToUSD w amountIDR with
        | (.err _, t1) => (httpError "Error converting IDR to USD" 500, t1)
        | (.panic msg, t1) => (.aborted msg, t1)
        | (.ok usdAmount, t1) =>
          match buyCrypto w usdAmount with
          | (.err _, t2) => (httpError "Error buying crypto on Binance" 500, t1 ++ t2)
          | (.panic msg, t2) => (.aborted msg, t1 ++ t2)
          | (.ok _, t2) =>
            match buyNFTTicket w usdAmount with
            | (.err _, t3) => (httpError "Error purchasing NFT ticket" 500, t1 ++ t2 ++ t3)
            | (.panic msg, t3) => (.aborted msg, t1 ++ t2 ++ t3)
            | (.ok transactionHash, t3) =>
              (.reply ⟨200, "application/json", .json (successJson transactionHash)⟩,
                t1 ++ t2 ++ t3)

/-! ## Observations on a run -/

/-- The events that mark the entry into a stage. -/
def Event.isStageEntry : Event → Bool
  | .convertIDRToUSD _ => true
  | .buyCrypto _ => true
  | .buyNFTTicket _ => true
  | _ => false

/-- The HTTP status of the reply, if there is a reply. -/
def Outcome.status : Outcome → Option Nat
  | .reply r => some r.status
  | .aborted _ => none

/-- A member of the JSON object the handler replied with, if it replied with one. -/
def Outcome.jsonField (o : Outcome) (key : String) : Option Json :=
  match o with
  | .reply ⟨_, _, .json j⟩ => mapIndex (jsonUnmarshal (some j)) key
  | _ => none

/-- The natural number a list of decimal digits denotes. -/
def decodeDigits (cs : List Char) : Nat :=
  cs.foldl (fun acc c => acc * 10 + (c.toNat - 48)) 0

/-- The text of a quantity of `u` millionths: the integer part, a point, six digits. -/
def fixed6 (u : Nat) : String :=
  String.mk (natDigits (u / 10 ^ 6) ++ '.' :: fixedDigits 6 (u % 10 ^ 6))

/-- Two results of an HTTP call that differ at most in the status code of the response. -/
def sameUpToStatus : HttpResult → HttpResult → Prop
  | .error e, .error e2 => e = e2
  | .ok a, .ok b => a.body = b.body
  | _, _ => False

/-- Two worlds whose answers differ at most in their status codes. -/
def World.sameUpToStatus (w v : World) : Prop :=
  (∀ x, PaymentGateway.sameUpToStatus (w.wise x) (v.wise x)) ∧
  PaymentGateway.sameUpToStatus w.ticker v.ticker ∧
  (∀ q, PaymentGateway.sameUpToStatus (w.order q) (v.order q)) ∧
  (∀ x, PaymentGateway.sameUpToStatus (w.market x) (v.market x))

/-! ## Scenarios -/

/-- A response with the given status whose body is a JSON object. -/
def jsonResponse (status : Nat) (members : List (String × Json)) : HttpResult :=
  .ok ⟨status, some (.obj members)⟩

/-- The end-to-end scenario: the quote is `95.0`, the BTC price `50000`, the order id
`12345`, the transaction hash `0xabc`. -/
def exampleWorld : World where
  wise _ := jsonResponse 200 [("targetAmount", .num false 950 (-1))]
  ticker := jsonResponse 200 [("symbol", .str "BTCUSDT"), ("price", .str "50000")]
  order _ := jsonResponse 200 [("orderId", .str "12345")]
  market _ := jsonResponse 200 [("transactionHash", .str "0xabc")]

/-- The request `POST` with body `amountIDR: 1500000`. -/
def exampleRequest : Request :=
  ⟨"POST", .ok (some (.obj [("amountIDR", .num false 1500000 0)]))⟩

/-- The `float64` value 1500000. -/
def f1500000 : Float64 := .fin false 6442450944000000 (-32)

/-- The `float64` value 95. -/
def f95 : Float64 := .fin false 6685030696878080 (-46)

/-- The `float64` value 50000. -/
def f50000 : Float64 := .fin false 6871947673600000 (-37)

/-- The `float64` nearest to 0.075. -/
def f0075 : Float64 := .fin false 5404319552844595 (-56)

/-- The largest finite `float64`, `(2 ^ 53 - 1) * 2 ^ 971`. -/
def maxFloat64 : Float64 := .fin false 9007199254740991 971

/-- The `float64` value 0.5. -/
def fHalf : Float64 := .fin false 4503599627370496 (-53)

/-- The quoting service answers with an object without `targetAmount`. -/
def noTargetAmountWorld : World :=
  { exampleWorld with wise := fun _ => jsonResponse 200 [("error", .str "invalid quote")] }

/-- The exchange rejects the order: its answer has no `orderId`. -/
def orderRejectedWorld : World :=
  { exampleWorld with
    order := fun _ => jsonResponse 400 [("code", .num true 2010 0), ("msg", .str "rejected")] }

/-- The ticker answers with an error object: there is no `price` member. -/
def noPriceWorld : World :=
  { exampleWorld with
    ticker := jsonResponse 400 [("code", .num true 1121 0), ("msg", .str "Invalid symbol.")] }

/-- The ticker answers with a price that is not a number. -/
def badPriceWorld : World :=
  { exampleWorld with ticker := jsonResponse 200 [("price", .str "n/a")] }

/-- The ticker answers with the price `0`. -/
def zeroPriceWorld : World :=
  { exampleWorld with ticker := jsonResponse 200 [("symbol", .str "BTCUSDT"), ("price", .str "0")] }

/-- Every service answers with status 500, and a body that carries the field the stage
looks for. -/
def status500World : World where
  wise _ := jsonResponse 500 [("targetAmount", .num false 950 (-1))]
  ticker := jsonResponse 500 [("symbol", .str "BTCUSDT"), ("price", .str "50000")]
  order _ := jsonResponse 500 [("orderId", .str "12345")]
  market _ := jsonResponse 500 [("transactionHash", .str "0xabc")]

/-- The marketplace answers with an empty transaction hash. -/
def emptyHashWorld : World :=
  { exampleWorld with market := fun _ => jsonResponse 200 [("transactionHash", .str "")] }

/-- The quote is `0.075`. -/
def smallQuoteWorld : World :=
  { exampleWorld with wise := fun _ => jsonResponse 200 [("targetAmount", .num false 75 (-3))] }

/-- A `GET` request with the body of the example. -/
def getRequest : Request := { exampleRequest with method := "GET" }

/-- A `POST` whose `amountIDR` is the string `1500000`. -/
def stringAmountRequest : Request :=
  ⟨"POST", .ok (some (.obj [("amountIDR", .str "1500000")]))⟩

/-- A `POST` whose body is a JSON array. -/
def arrayRequest : Request := ⟨"POST", .ok (some (.arr [.num false 1500000 0]))⟩

/-- A `POST` whose body is not JSON. -/
def notJsonRequest : Request := ⟨"POST", .ok none⟩

/-! # Theorems -/

set_option maxRecDepth 100000

/-! ## The handler: method and input checks -/

/-- C10: a request whose method is not POST is answered with status 405, and the run performs
no event at all: no stage is entered and no HTTP request is sent. -/
theorem handler_method_not_allowed (w : World) (r : Request) (hm : r.method ≠ "POST") :
    handler w r = (httpError "Invalid request method" 405, []) ∧
    (handler w r).1.status = some 405 ∧ (handler w r).2 = [] := by
  have h : handler w r = (httpError "Invalid request method" 405, []) := by
    simp [handler, hm]
  simp [h, httpError, Outcome.status]

/-- C10, at a `GET` request. -/
theorem handler_method_not_allowed_witness :
    getRequest.method ≠ "POST" ∧
    handler exampleWorld getRequest = (httpError "Invalid request method" 405, []) :=
  ⟨by decide, (handler_method_not_allowed exampleWorld getRequest (by decide)).1⟩

/-- C2: a POST whose body, once decoded, has no `amountIDR` member that is a JSON number (the
body is not JSON, is not an object, lacks the member, or holds another kind of value there) is
answered with status 400, and the run performs no event: no stage is entered. -/
theorem handler_invalid_amount (w : World) (r : Request) (body : Body)
    (hm : r.method = "POST") (hb : r.body = .ok body)
    (ha : ∀ neg mant exp10,
      mapIndex (jsonUnmarshal body) "amountIDR" ≠ some (.num neg mant exp10)) :
    handler w r = (httpError "Invalid amountIDR" 400, []) ∧
    (handler w r).1.status = some 400 ∧ (handler w r).2 = [] := by
  have hf : asFloat64 (mapIndex (jsonUnmarshal body) "amountIDR") = none := by
    cases hv : mapIndex (jsonUnmarshal body) "amountIDR" with
    | none => rfl
    | some j =>
      cases j with
      | num neg mant exp10 => exact absurd hv (ha neg mant exp10)
      | _ => rfl
  have h : handler w r = (httpError "Invalid amountIDR" 400, []) := by
    simp [handler, hm, hb, hf]
  simp [h, httpError, Outcome.status]

/-- C2, at a body whose `amountIDR` is the string `1500000`, at a body that is an array and
at a body that is not JSON. -/
theorem handler_invalid_amount_witness :
    handler exampleWorld stringAmountRequest = (httpError "Invalid amountIDR" 400, []) ∧
    handler exampleWorld arrayRequest = (httpError "Invalid amountIDR" 400, []) ∧
    handler exampleWorld notJsonRequest = (httpError "Invalid amountIDR" 400, []) :=
  ⟨(handler_invalid_amount exampleWorld stringAmountRequest _ rfl rfl
      (by intro neg mant exp10 h; cases h)).1,
   (handler_invalid_amount exampleWorld arrayRequest _ rfl rfl
      (by intro neg mant exp10 h; cases h)).1,
   (handler_invalid_amount exampleWorld notJsonRequest _ rfl rfl
      (by intro neg mant exp10 h; cases h)).1⟩

/-- The trace of `convertIDRToUSD` is the stage entry followed by the one request. -/
theorem convertIDRToUSD_trace (w : World) (a : Float64) :
    (convertIDRToUSD w a).2 = [Event.convertIDRToUSD a, Event.wisePost (jsonMarshalAmount a)] := by
  unfold convertIDRToUSD
  dsimp only
  split
  · rfl
  · split <;> rfl

/-- The trace of `buyNFTTicket` is the stage entry followed by the one request. -/
theorem buyNFTTicket_trace (w : World) (a : Float64) :
    (buyNFTTicket w a).2 = [Event.buyNFTTicket a, Event.ticketPost (jsonMarshalAmount a)] := by
  unfold buyNFTTicket
  dsimp only
  split
  · rfl
  · split <;> rfl

/-- The trace of `buyCrypto` is the stage entry, the ticker request and at most one order. -/
theorem buyCrypto_trace (w : World) (a : Float64) :
    (buyCrypto w a).2 = [Event.buyCrypto a, Event.tickerGet] ∨
    ∃ q, (buyCrypto w a).2 = [Event.buyCrypto a, Event.tickerGet, Event.orderPost q] := by
  unfold buyCrypto
  dsimp only
  split
  · exact Or.inl rfl
  · split
    · exact Or.inl rfl
    · split
      · exact Or.inl rfl
      · rename_i bitcoinPrice _
        refine Or.inr ⟨sprintfF6 (Float64.div a bitcoinPrice), ?_⟩
        split
        · rfl
        · split <;> rfl

/-- Stopping at a returned error: on a POST with a numeric `amountIDR`, if `convertIDRToUSD`
returns an error the handler replies 500 and the run consists of that one call: `buyCrypto`
and `buyNFTTicket` are not entered; if `buyCrypto` returns an error the handler replies 500 and
`buyNFTTicket` is not entered.  In both runs every stage is entered at most once.  A stage
that ends in a panic instead of an error is not covered here. -/
theorem handler_stops_at_first_error (w : World) (r : Request) (body : Body)
    (amountIDR : Float64) (hm : r.method = "POST") (hb : r.body = .ok body)
    (ha : asFloat64 (mapIndex (jsonUnmarshal body) "amountIDR") = some amountIDR) :
    (∀ msg t1, convertIDRToUSD w amountIDR = (.err msg, t1) →
      handler w r = (httpError "Error converting IDR to USD" 500, t1) ∧
      (handler w r).1.status = some 500 ∧
      (handler w r).2.filter Event.isStageEntry = [Event.convertIDRToUSD amountIDR] ∧
      (∀ e ∈ (handler w r).2, e = Event.convertIDRToUSD amountIDR ∨
        e = Event.wisePost (jsonMarshalAmount amountIDR))) ∧
    (∀ usd t1 msg t2, convertIDRToUSD w amountIDR = (.ok usd, t1) →
      buyCrypto w usd = (.err msg, t2) →
      handler w r = (httpError "Error buying crypto on Binance" 500, t1 ++ t2) ∧
      (handler w r).1.status = some 500 ∧
      (handler w r).2.filter Event.isStageEntry =
        [Event.convertIDRToUSD amountIDR, Event.buyCrypto usd] ∧
      (∀ x, Event.buyNFTTicket x ∉ (handler w r).2) ∧
      (∀ x, Event.ticketPost x ∉ (handler w r).2)) := by
  constructor
  · intro msg t1 h1
    have h : handler w r = (httpError "Error converting IDR to USD" 500, t1) := by
      simp [handler, hm, hb, ha, h1]
    have ht : t1 = [Event.convertIDRToUSD amountIDR,
        Event.wisePost (jsonMarshalAmount amountIDR)] := by
      have := convertIDRToUSD_trace w amountIDR
      rw [h1] at this
      exact this
    subst ht
    refine ⟨h, ?_, ?_, ?_⟩
    · simp [h, httpError, Outcome.status]
    · simp [h, Event.isStageEntry]
    · simp [h]
  · intro usd t1 msg t2 h1 h2
    have h : handler w r = (httpError "Error buying crypto on Binance" 500, t1 ++ t2) := by
      simp [handler, hm, hb, ha, h1, h2]
    have ht1 : t1 = [Event.convertIDRToUSD amountIDR,
        Event.wisePost (jsonMarshalAmount amountIDR)] := by
      have := convertIDRToUSD_trace w amountIDR
      rw [h1] at this
      exact this
    have ht2 := buyCrypto_trace w usd
    rw [h2] at ht2
    subst ht1
    refine ⟨h, ?_, ?_, ?_, ?_⟩
    · simp [h, httpError, Outcome.status]
    · rcases ht2 with ht2 | ⟨q, ht2⟩ <;> simp at ht2 <;> subst ht2 <;>
        simp [h, Event.isStageEntry]
    · rcases ht2 with ht2 | ⟨q, ht2⟩ <;> simp at ht2 <;> subst ht2 <;> simp [h]
    · rcases ht2 with ht2 | ⟨q, ht2⟩ <;> simp at ht2 <;> subst ht2 <;> simp [h]

/-- Stopping at a returned error, at a quoting service that answers without `targetAmount`,
and at an exchange that rejects the order. -/
theorem handler_stops_at_first_error_witness :
    handler noTargetAmountWorld exampleRequest =
      (httpError "Error converting IDR to USD" 500,
        [Event.convertIDRToUSD f1500000, Event.wisePost (some f1500000)]) ∧
    handler orderRejectedWorld exampleRequest =
      (httpError "Error buying crypto on Binance" 500,
        [Event.convertIDRToUSD f1500000, Event.wisePost (some f1500000)] ++
        [Event.buyCrypto f95, Event.tickerGet, Event.orderPost "0.001900"]) :=
  ⟨((handler_stops_at_first_error noTargetAmountWorld exampleRequest _ f1500000
      rfl rfl rfl).1 _ _ rfl).1,
   ((handler_stops_at_first_error orderRejectedWorld exampleRequest _ f1500000
      rfl rfl rfl).2 f95 _ _ _ rfl rfl).1⟩

/-- When `buyNFTTicket` returns a hash, it is the `transactionHash` string of the body the
marketplace answered with. -/
theorem buyNFTTicket_ok (w : World) (a : Float64) (h : String) (t : List Event)
    (hok : buyNFTTicket w a = (.ok h, t)) :
    ∃ resp, w.market (jsonMarshalAmount a) = .ok resp ∧
      mapIndex (jsonUnmarshal resp.body) "transactionHash" = some (.str h) := by
  unfold buyNFTTicket at hok
  dsimp only at hok
  split at hok
  · simp at hok
  · rename_i resp hresp
    refine ⟨resp, hresp, ?_⟩
    split at hok
    · simp at hok
    · rename_i s hs
      simp only [Prod.mk.injEq, Result.ok.injEq] at hok
      cases hv : mapIndex (jsonUnmarshal resp.body) "transactionHash" with
      | none => simp [hv, asString] at hs
      | some j =>
        cases j <;> simp [hv, asString] at hs
        rw [hs, hok.1]

/-- The reply of a run in which the three stages return values. -/
theorem handler_all_ok (w : World) (r : Request) (body : Body) (amountIDR usd : Float64)
    (orderId hash : String) (t1 t2 t3 : List Event)
    (hm : r.method = "POST") (hb : r.body = .ok body)
    (ha : asFloat64 (mapIndex (jsonUnmarshal body) "amountIDR") = some amountIDR)
    (h1 : convertIDRToUSD w amountIDR = (.ok usd, t1))
    (h2 : buyCrypto w usd = (.ok orderId, t2))
    (h3 : buyNFTTicket w usd = (.ok hash, t3)) :
    handler w r =
      (.reply ⟨200, "application/json", .json (successJson hash)⟩, t1 ++ t2 ++ t3) := by
  simp [handler, hm, hb, ha, h1, h2, h3]

/-- C4: when the three stages return values, the reply is status 200 with the JSON object of
exactly the two members `success = true` and `transactionHash = h`, where `h` is the
`transactionHash` string of the marketplace's answer (and not the order id). -/
theorem handler_success_body (w : World) (r : Request) (body : Body) (amountIDR usd : Float64)
    (orderId hash : String) (t1 t2 t3 : List Event)
    (hm : r.method = "POST") (hb : r.body = .ok body)
    (ha : asFloat64 (mapIndex (jsonUnmarshal body) "amountIDR") = some amountIDR)
    (h1 : convertIDRToUSD w amountIDR = (.ok usd, t1))
    (h2 : buyCrypto w usd = (.ok orderId, t2))
    (h3 : buyNFTTicket w usd = (.ok hash, t3)) :
    (handler w r).1 = .reply ⟨200, "application/json",
      .json (.obj [("success", .bool true), ("transactionHash", .str hash)])⟩ ∧
    ∃ resp, w.market (jsonMarshalAmount usd) = .ok resp ∧
      mapIndex (jsonUnmarshal resp.body) "transactionHash" = some (.str hash) := by
  refine ⟨?_, buyNFTTicket_ok w usd hash t3 h3⟩
  rw [handler_all_ok w r body amountIDR usd orderId hash t1 t2 t3 hm hb ha h1 h2 h3]
  rfl

/-- C4, at the end-to-end scenario: `amountIDR` 1500000, quote 95.0, price 50000, order id
`12345`, marketplace hash `0xabc`. -/
theorem handler_success_body_witness :
    convertIDRToUSD exampleWorld f1500000 =
      (.ok f95, [Event.convertIDRToUSD f1500000, Event.wisePost (some f1500000)]) ∧
    buyCrypto exampleWorld f95 =
      (.ok "12345", [Event.buyCrypto f95, Event.tickerGet, Event.orderPost "0.001900"]) ∧
    (handler exampleWorld exampleRequest).1 = .reply ⟨200, "application/json",
      .json (.obj [("success", .bool true), ("transactionHash", .str "0xabc")])⟩ :=
  ⟨rfl, rfl, (handler_success_body exampleWorld exampleRequest _ f1500000 f95 "12345" "0xabc"
    _ _ _ rfl rfl rfl rfl rfl rfl).1⟩

/-- C3 as stated fails: with a marketplace that answers `transactionHash: ""`, every stage
returns without error on a positive amount, the reply marks success, and the hash it carries
is the empty string. -/
theorem empty_hash_counterexample :
    f1500000.isPos = true ∧
    (convertIDRToUSD emptyHashWorld f1500000).1 = .ok f95 ∧
    (buyCrypto emptyHashWorld f95).1 = .ok "12345" ∧
    (buyNFTTicket emptyHashWorld f95).1 = .ok "" ∧
    (handler emptyHashWorld exampleRequest).1.jsonField "success" = some (.bool true) ∧
    (handler emptyHashWorld exampleRequest).1.jsonField "transactionHash" = some (.str "") :=
  ⟨rfl, rfl, rfl, rfl, rfl, rfl⟩

/-- C3, amended: when the three stages return values, the reply marks `success = true` and
carries as `transactionHash` the string returned by `buyNFTTicket`; that string is non-empty
exactly when the `transactionHash` member of the marketplace's answer is a non-empty string. -/
theorem handler_success_hash (w : World) (r : Request) (body : Body) (amountIDR usd : Float64)
    (orderId hash : String) (t1 t2 t3 : List Event)
    (hm : r.method = "POST") (hb : r.body = .ok body)
    (ha : asFloat64 (mapIndex (jsonUnmarshal body) "amountIDR") = some amountIDR)
    (h1 : convertIDRToUSD w amountIDR = (.ok usd, t1))
    (h2 : buyCrypto w usd = (.ok orderId, t2))
    (h3 : buyNFTTicket w usd = (.ok hash, t3)) :
    (handler w r).1.status = some 200 ∧
    (handler w r).1.jsonField "success" = some (.bool true) ∧
    (handler w r).1.jsonField "transactionHash" = some (.str hash) ∧
    (hash ≠ "" ↔ ∃ resp s, w.market (jsonMarshalAmount usd) = .ok resp ∧
      mapIndex (jsonUnmarshal resp.body) "transactionHash" = some (.str s) ∧ s ≠ "") := by
  rw [handler_all_ok w r body amountIDR usd orderId hash t1 t2 t3 hm hb ha h1 h2 h3]
  refine ⟨rfl, rfl, rfl, ?_⟩
  obtain ⟨resp, hresp, hfield⟩ := buyNFTTicket_ok w usd hash t3 h3
  constructor
  · intro hne
    exact ⟨resp, hash, hresp, hfield, hne⟩
  · rintro ⟨resp2, s, hresp2, hfield2, hne⟩
    rw [hresp] at hresp2
    cases hresp2
    rw [hfield] at hfield2
    cases hfield2
    exact hne

/-- C3 amended, at the end-to-end scenario. -/
theorem handler_success_hash_witness :
    (handler exampleWorld exampleRequest).1.jsonField "success" = some (.bool true) ∧
    (handler exampleWorld exampleRequest).1.jsonField "transactionHash"
      = some (.str "0xabc") :=
  have h := handler_success_hash exampleWorld exampleRequest _ f1500000 f95 "12345" "0xabc"
    _ _ _ rfl rfl rfl rfl rfl rfl
  ⟨h.2.1, h.2.2.1⟩

/-- The shape of every run of the handler: which stages ran, on which arguments. -/
theorem handler_trace_cases (w : World) (r : Request) :
    (handler w r).2 = [] ∨
    ∃ amountIDR,
      (∃ body, r.body = .ok body ∧
        asFloat64 (mapIndex (jsonUnmarshal body) "amountIDR") = some amountIDR) ∧
      ((handler w r).2 = (convertIDRToUSD w amountIDR).2 ∨
       ∃ usd, (convertIDRToUSD w amountIDR).1 = .ok usd ∧
        ((handler w r).2 = (convertIDRToUSD w amountIDR).2 ++ (buyCrypto w usd).2 ∨
         (handler w r).2 = (convertIDRToUSD w amountIDR).2 ++ (buyCrypto w usd).2
            ++ (buyNFTTicket w usd).2)) := by
  unfold handler
  split
  · exact Or.inl rfl
  · split
    · exact Or.inl rfl
    · rename_i body hbody
      dsimp only
      split
      · exact Or.inl rfl
      · rename_i amountIDR ha
        refine Or.inr ⟨amountIDR, ⟨body, hbody, ha⟩, ?_⟩
        split
        · rename_i h1; left; simp [h1]
        · rename_i h1; left; simp [h1]
        · rename_i usd t1 h1
          right
          refine ⟨usd, by simp [h1], ?_⟩
          split
          · rename_i h2; left; simp [h1, h2]
          · rename_i h2; left; simp [h1, h2]
          · rename_i h2
            right
            split <;> rename_i h3 <;> simp [h1, h2, h3]

/-- C5: in every run that enters `buyNFTTicket`, with argument `y`, the request carried a
numeric `amountIDR` on which `convertIDRToUSD` returned exactly `y`; `buyCrypto` was entered
with that same `y` and with nothing else, `buyNFTTicket` with nothing else, and the marketplace
was sent `y` as `cryptoAmount`. -/
theorem handler_passes_converted_amount (w : World) (r : Request) (y : Float64)
    (hy : Event.buyNFTTicket y ∈ (handler w r).2) :
    (∃ body amountIDR, r.body = .ok body ∧
      asFloat64 (mapIndex (jsonUnmarshal body) "amountIDR") = some amountIDR ∧
      (convertIDRToUSD w amountIDR).1 = .ok y) ∧
    Event.buyCrypto y ∈ (handler w r).2 ∧
    (∀ x, Event.buyCrypto x ∈ (handler w r).2 → x = y) ∧
    (∀ z, Event.buyNFTTicket z ∈ (handler w r).2 → z = y) ∧
    (∀ z, Event.ticketPost z ∈ (handler w r).2 → z = jsonMarshalAmount y) := by
  rcases handler_trace_cases w r with h | ⟨a, ⟨body, hbody, ha⟩, h⟩
  · rw [h] at hy; simp at hy
  · have hc := convertIDRToUSD_trace w a
    rcases h with h | ⟨usd, hu, h | h⟩
    · rw [h, hc] at hy; simp at hy
    · rcases buyCrypto_trace w usd with hb | ⟨q, hb⟩ <;>
        (rw [h, hc, hb] at hy; simp at hy)
    · have hn := buyNFTTicket_trace w usd
      have hyu : y = usd := by
        rcases buyCrypto_trace w usd with hb | ⟨q, hb⟩ <;>
          (rw [h, hc, hb, hn] at hy; simpa using hy)
      subst hyu
      refine ⟨⟨body, a, hbody, ha, hu⟩, ?_, ?_, ?_, ?_⟩ <;>
        rcases buyCrypto_trace w y with hb | ⟨q, hb⟩ <;>
          simp [h, hc, hb, hn]

/-- C5, at the end-to-end scenario: the request says 1500000, the quote is 95, the order
quantity is 0.001900, and both `buyCrypto` and `buyNFTTicket` are entered with 95. -/
theorem handler_passes_converted_amount_witness :
    (handler exampleWorld exampleRequest).2 =
      [Event.convertIDRToUSD f1500000, Event.wisePost (some f1500000),
       Event.buyCrypto f95, Event.tickerGet, Event.orderPost "0.001900",
       Event.buyNFTTicket f95, Event.ticketPost (some f95)] ∧
    Event.buyCrypto f95 ∈ (handler exampleWorld exampleRequest).2 ∧
    Event.buyCrypto f1500000 ∉ (handler exampleWorld exampleRequest).2 :=
  have h := handler_passes_converted_amount exampleWorld exampleRequest f95 (by decide)
  ⟨rfl, h.2.1, fun hmem => absurd (h.2.2.1 f1500000 hmem) (by decide)⟩

/-! ## `buyCrypto` after the ticker -/

/-- What `buyCrypto` does once the ticker has answered with a price that parses: it posts one
order, and its result is decided by the answer to that order. -/
theorem buyCrypto_with_price (w : World) (usd : Float64) (resp : Response) (s : String)
    (p : Float64) (ht : w.ticker = .ok resp)
    (hs : mapIndex (jsonUnmarshal resp.body) "price" = some (.str s))
    (hp : ParseFloat s = .ok p) :
    (buyCrypto w usd).2 = [Event.buyCrypto usd, Event.tickerGet,
      Event.orderPost (sprintfF6 (Float64.div usd p))] ∧
    (∀ resp2 orderId, w.order (sprintfF6 (Float64.div usd p)) = .ok resp2 →
      mapIndex (jsonUnmarshal resp2.body) "orderId" = some (.str orderId) →
      (buyCrypto w usd).1 = .ok orderId) ∧
    (∀ e, w.order (sprintfF6 (Float64.div usd p)) = .error e →
      (buyCrypto w usd).1 = .err e) := by
  refine ⟨?_, ?_, ?_⟩
  · unfold buyCrypto
    simp only [ht, hs, asString, hp]
    split
    · rfl
    · split <;> rfl
  · intro resp2 orderId ho hid
    unfold buyCrypto
    simp only [ht, hs, asString, hp, ho, hid]
  · intro e ho
    unfold buyCrypto
    simp only [ht, hs, asString, hp, ho]

/-- A price string that does not parse makes `buyCrypto` return an error after the ticker
request, without an order. -/
theorem buyCrypto_unparsable_price (w : World) (usd : Float64) (resp : Response) (s : String)
    (e : NumError) (ht : w.ticker = .ok resp)
    (hs : mapIndex (jsonUnmarshal resp.body) "price" = some (.str s))
    (hp : ParseFloat s = .error e) :
    ∃ msg, buyCrypto w usd = (.err msg, [Event.buyCrypto usd, Event.tickerGet]) := by
  refine ⟨"strconv.ParseFloat: parsing error", ?_⟩
  unfold buyCrypto
  simp only [ht, hs, asString, hp]

/-! ## The stages and the HTTP status -/

/-- C9 as stated fails: every service answers with status 500 and a body that carries the
field, and each of the three stages returns that field without error. -/
theorem status_500_counterexample :
    status500World.wise (some f1500000) =
      .ok ⟨500, some (.obj [("targetAmount", .num false 950 (-1))])⟩ ∧
    (convertIDRToUSD status500World f1500000).1 = .ok f95 ∧
    status500World.order "0.001900" = .ok ⟨500, some (.obj [("orderId", .str "12345")])⟩ ∧
    buyCrypto status500World f95 =
      (.ok "12345", [Event.buyCrypto f95, Event.tickerGet, Event.orderPost "0.001900"]) ∧
    status500World.market (some f95) =
      .ok ⟨500, some (.obj [("transactionHash", .str "0xabc")])⟩ ∧
    (buyNFTTicket status500World f95).1 = .ok "0xabc" ∧
    (handler status500World exampleRequest).1.status = some 200 :=
  ⟨rfl, rfl, rfl, rfl, rfl, rfl, rfl⟩

/-- C9, amended: no stage looks at the HTTP status.  In two worlds whose answers differ at
most in their status codes, each of the three stages returns the same result and performs the
same events, and so does the handler; and an answer of any status whose body carries a numeric
`targetAmount`, a string `orderId` or a string `transactionHash` makes the stage return that
value. -/
theorem stages_ignore_status (w v : World) (h : w.sameUpToStatus v) (a : Float64)
    (r : Request) :
    convertIDRToUSD w a = convertIDRToUSD v a ∧
    buyCrypto w a = buyCrypto v a ∧
    buyNFTTicket w a = buyNFTTicket v a ∧
    handler w r = handler v r ∧
    (∀ status body x, w.wise (jsonMarshalAmount a) = .ok ⟨status, body⟩ →
      asFloat64 (mapIndex (jsonUnmarshal body) "targetAmount") = some x →
      (convertIDRToUSD w a).1 = .ok x) ∧
    (∀ resp s p status body orderId, w.ticker = .ok resp →
      mapIndex (jsonUnmarshal resp.body) "price" = some (.str s) → ParseFloat s = .ok p →
      w.order (sprintfF6 (Float64.div a p)) = .ok ⟨status, body⟩ →
      mapIndex (jsonUnmarshal body) "orderId" = some (.str orderId) →
      (buyCrypto w a).1 = .ok orderId) ∧
    (∀ status body hash, w.market (jsonMarshalAmount a) = .ok ⟨status, body⟩ →
      mapIndex (jsonUnmarshal body) "transactionHash" = some (.str hash) →
      (buyNFTTicket w a).1 = .ok hash) := by
  obtain ⟨hw, ht, ho, hk⟩ := h
  have hconv : ∀ a, convertIDRToUSD w a = convertIDRToUSD v a := by
    intro a
    have := hw (jsonMarshalAmount a)
    unfold convertIDRToUSD
    dsimp only
    cases h1 : w.wise (jsonMarshalAmount a) <;> cases h2 : v.wise (jsonMarshalAmount a) <;>
      simp [h1, h2, PaymentGateway.sameUpToStatus] at this ⊢
    · exact this
    · rw [this]
  have hbuy : ∀ a, buyCrypto w a = buyCrypto v a := by
    intro a
    unfold buyCrypto
    dsimp only
    cases h1 : w.ticker <;> cases h2 : v.ticker <;>
      simp [h1, h2, PaymentGateway.sameUpToStatus] at ht ⊢
    · exact ht
    · rw [ht]
      split
      · rfl
      · split
        · rfl
        · rename_i bp _
          have := ho (sprintfF6 (Float64.div a bp))
          cases h3 : w.order (sprintfF6 (Float64.div a bp)) <;>
            cases h4 : v.order (sprintfF6 (Float64.div a bp)) <;>
            simp [h3, h4, PaymentGateway.sameUpToStatus] at this ⊢
          · exact this
          · rw [this]
  have hnft : ∀ a, buyNFTTicket w a = buyNFTTicket v a := by
    intro a
    have := hk (jsonMarshalAmount a)
    unfold buyNFTTicket
    dsimp only
    cases h1 : w.market (jsonMarshalAmount a) <;> cases h2 : v.market (jsonMarshalAmount a) <;>
      simp [h1, h2, PaymentGateway.sameUpToStatus] at this ⊢
    · exact this
    · rw [this]
  refine ⟨hconv a, hbuy a, hnft a, ?_, ?_, ?_, ?_⟩
  · unfold handler
    simp only [hconv, hbuy, hnft]
  · intro status body x h1 h2
    unfold convertIDRToUSD
    simp only [h1, h2]
  · intro resp s p status body orderId h1 h2 h3 h4 h5
    exact (buyCrypto_with_price w a resp s p h1 h2 h3).2.1 ⟨status, body⟩ orderId h4 h5
  · intro status body hash h1 h2
    unfold buyNFTTicket
    simp only [h1, h2, asString]

/-- C9 amended, at the end-to-end scenario answered with status 200 and with status 500. -/
theorem stages_ignore_status_witness :
    buyCrypto exampleWorld f95 = buyCrypto status500World f95 ∧
    handler exampleWorld exampleRequest = handler status500World exampleRequest ∧
    (buyNFTTicket status500World f95).1 = .ok "0xabc" :=
  have h := stages_ignore_status exampleWorld status500World
    ⟨fun _ => rfl, rfl, fun _ => rfl, fun _ => rfl⟩ f95 exampleRequest
  have h2 := stages_ignore_status status500World exampleWorld
    ⟨fun _ => rfl, rfl, fun _ => rfl, fun _ => rfl⟩ f95 exampleRequest
  ⟨h.2.1, h.2.2.2.1, h2.2.2.2.2.2.2 500 _ "0xabc" rfl rfl⟩

/-! ## `buyCrypto`: the price -/

/-- Dividing by a zero never fails: the quotient is an infinity or NaN, printed by `%.6f` as
`+Inf`, `-Inf` or `NaN`. -/
theorem sprintfF6_div_zero (a z : Float64) (hz : z.isZero = true) :
    sprintfF6 (Float64.div a z) = "+Inf" ∨ sprintfF6 (Float64.div a z) = "-Inf" ∨
    sprintfF6 (Float64.div a z) = "NaN" := by
  cases z with
  | nan => simp [Float64.isZero] at hz
  | inf s => simp [Float64.isZero] at hz
  | fin t m2 e2 =>
    simp [Float64.isZero] at hz
    subst hz
    cases a with
    | nan => right; right; rfl
    | inf s => cases s <;> cases t <;> simp [Float64.div, sprintfF6]
    | fin s m e =>
      by_cases hm : m = 0
      · right; right; simp [Float64.div, hm, sprintfF6]
      · cases s <;> cases t <;> simp [Float64.div, hm, sprintfF6]

/-- C7 as stated fails: with the ticker price `0` (and likewise `0.00`), which parses to zero,
`buyCrypto` on the amount 95 returns no error before the order: it posts an order whose
quantity is `+Inf`, and returns the order id of the exchange. -/
theorem zero_price_counterexample :
    ParseFloat "0" = .ok (.fin false 0 (-1074)) ∧
    ParseFloat "0.00" = .ok (.fin false 0 (-1074)) ∧
    buyCrypto zeroPriceWorld f95 =
      (.ok "12345", [Event.buyCrypto f95, Event.tickerGet, Event.orderPost "+Inf"]) :=
  ⟨rfl, rfl, rfl⟩

/-- C7, amended: when the ticker price parses to zero, `buyCrypto` does not stop: it posts one
order, whose quantity is the text `+Inf`, `-Inf` or `NaN` (`+Inf` for an amount above zero and
the price `+0`), and its result is decided by the exchange's answer to that order: the order
id when the answer carries one, the transport error when the call fails. -/
theorem buyCrypto_zero_price (w : World) (usd : Float64) (resp : Response) (s : String)
    (z : Float64) (ht : w.ticker = .ok resp)
    (hs : mapIndex (jsonUnmarshal resp.body) "price" = some (.str s))
    (hp : ParseFloat s = .ok z) (hz : z.isZero = true) :
    (sprintfF6 (Float64.div usd z) = "+Inf" ∨ sprintfF6 (Float64.div usd z) = "-Inf" ∨
      sprintfF6 (Float64.div usd z) = "NaN") ∧
    (∀ e, usd.isPos = true → z = .fin false 0 e → sprintfF6 (Float64.div usd z) = "+Inf") ∧
    (buyCrypto w usd).2 = [Event.buyCrypto usd, Event.tickerGet,
      Event.orderPost (sprintfF6 (Float64.div usd z))] ∧
    (∀ resp2 orderId, w.order (sprintfF6 (Float64.div usd z)) = .ok resp2 →
      mapIndex (jsonUnmarshal resp2.body) "orderId" = some (.str orderId) →
      (buyCrypto w usd).1 = .ok orderId) ∧
    (∀ e, w.order (sprintfF6 (Float64.div usd z)) = .error e →
      (buyCrypto w usd).1 = .err e) := by
  obtain ⟨h1, h2, h3⟩ := buyCrypto_with_price w usd resp s z ht hs hp
  refine ⟨sprintfF6_div_zero usd z hz, ?_, h1, h2, h3⟩
  intro e hpos hz0
  subst hz0
  cases usd with
  | nan => simp [Float64.isPos] at hpos
  | inf n => simp [Float64.isPos] at hpos
  | fin n m e =>
    cases n
    · simp [Float64.isPos] at hpos
      have : m ≠ 0 := by omega
      simp [Float64.div, this, sprintfF6]
    · simp [Float64.isPos] at hpos

/-- C7 amended, at the ticker price `0` and the amount 95: the order is posted with the
quantity `+Inf` and `buyCrypto` returns the order id. -/
theorem buyCrypto_zero_price_witness :
    (buyCrypto zeroPriceWorld f95).2 =
      [Event.buyCrypto f95, Event.tickerGet, Event.orderPost "+Inf"] ∧
    (buyCrypto zeroPriceWorld f95).1 = .ok "12345" :=
  have h := buyCrypto_zero_price zeroPriceWorld f95
    ⟨200, some (.obj [("symbol", .str "BTCUSDT"), ("price", .str "0")])⟩ "0"
    (.fin false 0 (-1074)) rfl rfl rfl rfl
  ⟨h.2.2.1, h.2.2.2.1 ⟨200, some (.obj [("orderId", .str "12345")])⟩ "12345" rfl rfl⟩

/-- C8, where the code departs from it: when the ticker's answer has no `price` member that
is a string (the member is missing, the body is not a JSON object, or the value is of another
kind), `buyCrypto` returns nothing: it panics right after the ticker request, and a handler
that called it is aborted without a reply. -/
theorem buyCrypto_panics_without_price_string (w : World) (usd : Float64) (resp : Response)
    (ht : w.ticker = .ok resp)
    (hs : ∀ s, mapIndex (jsonUnmarshal resp.body) "price" ≠ some (.str s)) :
    (∃ msg, buyCrypto w usd = (.panic msg, [Event.buyCrypto usd, Event.tickerGet])) ∧
    (∀ r body amountIDR t1, r.method = "POST" → r.body = .ok body →
      asFloat64 (mapIndex (jsonUnmarshal body) "amountIDR") = some amountIDR →
      convertIDRToUSD w amountIDR = (.ok usd, t1) →
      ∃ msg, handler w r = (.aborted msg, t1 ++ [Event.buyCrypto usd, Event.tickerGet])) := by
  have hnone : asString (mapIndex (jsonUnmarshal resp.body) "price") = none := by
    cases hv : mapIndex (jsonUnmarshal resp.body) "price" with
    | none => rfl
    | some j =>
      cases j with
      | str s => exact absurd hv (hs s)
      | _ => rfl
  have hb : buyCrypto w usd = (.panic ("interface conversion: interface \x7b\x7d is "
      ++ dynamicType (mapIndex (jsonUnmarshal resp.body) "price") ++ ", not string"),
      [Event.buyCrypto usd, Event.tickerGet]) := by
    unfold buyCrypto
    simp only [ht, hnone]
  refine ⟨⟨_, hb⟩, ?_⟩
  intro r body amountIDR t1 hm hbody ha h1
  exact ⟨"interface conversion: interface \x7b\x7d is "
      ++ dynamicType (mapIndex (jsonUnmarshal resp.body) "price") ++ ", not string",
    by simp [handler, hm, hbody, ha, h1, hb]⟩

/-- C8, at a ticker that answers with an error object: `buyCrypto` panics and the handler is
aborted; and at a price string that does not parse, where `buyCrypto` does return an error
and posts no order. -/
theorem buyCrypto_panics_without_price_string_witness :
    (∃ msg, buyCrypto noPriceWorld f95 = (.panic msg, [Event.buyCrypto f95, Event.tickerGet])) ∧
    handler noPriceWorld exampleRequest =
      (.aborted "interface conversion: interface \x7b\x7d is nil, not string",
        [Event.convertIDRToUSD f1500000, Event.wisePost (some f1500000),
         Event.buyCrypto f95, Event.tickerGet]) ∧
    buyCrypto badPriceWorld f95 =
      (.err "strconv.ParseFloat: parsing error", [Event.buyCrypto f95, Event.tickerGet]) :=
  ⟨(buyCrypto_panics_without_price_string noPriceWorld f95
      ⟨400, some (.obj [("code", .num true 1121 0), ("msg", .str "Invalid symbol.")])⟩ rfl
      (by intro s h; cases h)).1, rfl, rfl⟩

/-! ## The handler when `buyCrypto` fails on the ticker's answer -/

/-- Without a `price` member that is a string, `buyCrypto` ends in a panic after the ticker
request. -/
theorem buyCrypto_panic_of_no_price (w : World) (usd : Float64) (resp : Response)
    (ht : w.ticker = .ok resp)
    (hs : ∀ s, mapIndex (jsonUnmarshal resp.body) "price" ≠ some (.str s)) :
    buyCrypto w usd = (.panic ("interface conversion: interface \x7b\x7d is "
      ++ dynamicType (mapIndex (jsonUnmarshal resp.body) "price") ++ ", not string"),
      [Event.buyCrypto usd, Event.tickerGet]) := by
  have hnone : asString (mapIndex (jsonUnmarshal resp.body) "price") = none := by
    cases hv : mapIndex (jsonUnmarshal resp.body) "price" with
    | none => rfl
    | some j =>
      cases j with
      | str s => exact absurd hv (hs s)
      | _ => rfl
  unfold buyCrypto
  simp only [ht, hnone]

/-- C1, where the code departs from it: on a POST with a numeric `amountIDR` whose conversion
succeeded, when `buyCrypto` fails because the ticker's answer has no `price` member that is a
string, the handler does not stop with status 500: the run is aborted by the panic and no
reply is written.  `buyNFTTicket` is not entered and no stage is entered twice, as the claim
says; the missing reply is the departure. -/
theorem handler_no_reply_when_price_missing (w : World) (r : Request) (body : Body)
    (amountIDR usd : Float64) (t1 : List Event) (resp : Response)
    (hm : r.method = "POST") (hb : r.body = .ok body)
    (ha : asFloat64 (mapIndex (jsonUnmarshal body) "amountIDR") = some amountIDR)
    (h1 : convertIDRToUSD w amountIDR = (.ok usd, t1))
    (ht : w.ticker = .ok resp)
    (hs : ∀ s, mapIndex (jsonUnmarshal resp.body) "price" ≠ some (.str s)) :
    (handler w r).1.status = none ∧
    (handler w r).1.status ≠ some 500 ∧
    (∃ msg, (handler w r).1 = .aborted msg) ∧
    (handler w r).2.filter Event.isStageEntry =
      [Event.convertIDRToUSD amountIDR, Event.buyCrypto usd] ∧
    (∀ x, Event.buyNFTTicket x ∉ (handler w r).2) ∧
    (∀ x, Event.ticketPost x ∉ (handler w r).2) := by
  have hp := buyCrypto_panic_of_no_price w usd resp ht hs
  have ht1 : t1 = [Event.convertIDRToUSD amountIDR,
      Event.wisePost (jsonMarshalAmount amountIDR)] := by
    have := convertIDRToUSD_trace w amountIDR
    rw [h1] at this
    exact this
  subst ht1
  have h : handler w r = (.aborted ("interface conversion: interface \x7b\x7d is "
      ++ dynamicType (mapIndex (jsonUnmarshal resp.body) "price") ++ ", not string"),
      [Event.convertIDRToUSD amountIDR, Event.wisePost (jsonMarshalAmount amountIDR)]
        ++ [Event.buyCrypto usd, Event.tickerGet]) := by
    simp [handler, hm, hb, ha, h1, hp]
  rw [h]
  refine ⟨rfl, ?_, ⟨_, rfl⟩, ?_, ?_, ?_⟩
  · simp [Outcome.status]
  · simp [Event.isStageEntry]
  · simp
  · simp

/-- C1, at the failing input: the request of the example, a quote of 95.0 and a ticker that
answers with an error object.  The run has no status at all, hence not 500. -/
theorem handler_no_reply_when_price_missing_witness :
    (convertIDRToUSD noPriceWorld f1500000).1 = .ok f95 ∧
    (handler noPriceWorld exampleRequest).1.status = none ∧
    (handler noPriceWorld exampleRequest).1.status ≠ some 500 ∧
    (handler noPriceWorld exampleRequest).2 =
      [Event.convertIDRToUSD f1500000, Event.wisePost (some f1500000),
       Event.buyCrypto f95, Event.tickerGet] :=
  have h := handler_no_reply_when_price_missing noPriceWorld exampleRequest _ f1500000 f95 _
    ⟨400, some (.obj [("code", .num true 1121 0), ("msg", .str "Invalid symbol.")])⟩
    rfl rfl rfl rfl rfl (by intro s h; cases h)
  ⟨rfl, h.1, h.2.1, rfl⟩

/-! ## `buyCrypto`: the quantity -/

/-- The value of a digit character. -/
theorem digitChar_toNat (d : Nat) : (digitChar d).toNat = 48 + d % 10 := by
  unfold digitChar
  have h : d % 10 < 10 := Nat.mod_lt _ (by decide)
  generalize d % 10 = k at h ⊢
  interval_cases k <;> rfl

theorem decodeDigits_append (xs : List Char) (c : Char) :
    decodeDigits (xs ++ [c]) = decodeDigits xs * 10 + (c.toNat - 48) := by
  simp [decodeDigits, List.foldl_append]

/-- The six digits of `%.6f` are six characters. -/
theorem fixedDigits_length (k n : Nat) : (fixedDigits k n).length = k := by
  induction k generalizing n with
  | zero => rfl
  | succ k ih => simp [fixedDigits, ih]

/-- Read back, `k` fixed digits of `n` are `n` modulo `10 ^ k`. -/
theorem decodeDigits_fixedDigits (k n : Nat) : decodeDigits (fixedDigits k n) = n % 10 ^ k := by
  induction k generalizing n with
  | zero => simp [fixedDigits, decodeDigits, Nat.mod_one]
  | succ k ih =>
    rw [fixedDigits, decodeDigits_append, ih, digitChar_toNat]
    have h1 : 48 + n % 10 - 48 = n % 10 := by omega
    rw [h1, pow_succ, Nat.mul_comm (10 ^ k) 10, Nat.mod_mul]
    ring

theorem foldl_digit_init (cs : List Char) (i : Nat) :
    cs.foldl (fun acc c => acc * 10 + (c.toNat - 48)) i =
      i * 10 ^ cs.length + decodeDigits cs := by
  induction cs generalizing i with
  | nil => simp [decodeDigits]
  | cons c cs ih =>
    simp only [List.foldl_cons, List.length_cons, decodeDigits]
    rw [ih, ih (0 * 10 + (c.toNat - 48))]
    ring

theorem decodeDigits_cons_digit (n : Nat) (acc : List Char) :
    decodeDigits (digitChar n :: acc) = n % 10 * 10 ^ acc.length + decodeDigits acc := by
  have h : (digitChar n).toNat - 48 = n % 10 := by rw [digitChar_toNat]; omega
  simp only [decodeDigits, List.foldl_cons]
  rw [foldl_digit_init, h]
  simp [decodeDigits]

theorem decodeDigits_natDigitsFuel (fuel n : Nat) (acc : List Char) (h : n < fuel) :
    decodeDigits (natDigitsFuel fuel n acc) = n * 10 ^ acc.length + decodeDigits acc := by
  induction fuel generalizing n acc with
  | zero => omega
  | succ fuel ih =>
    unfold natDigitsFuel
    split
    · rename_i hlt
      rw [decodeDigits_cons_digit, Nat.mod_eq_of_lt hlt]
    · rename_i hge
      rw [ih (n / 10) _ (by omega), decodeDigits_cons_digit, List.length_cons, pow_succ]
      have := Nat.div_add_mod n 10
      calc n / 10 * (10 ^ acc.length * 10) + (n % 10 * 10 ^ acc.length + decodeDigits acc)
          = (10 * (n / 10) + n % 10) * 10 ^ acc.length + decodeDigits acc := by ring
        _ = n * 10 ^ acc.length + decodeDigits acc := by rw [this]

/-- Read back, the digits of `n` are `n`. -/
theorem decodeDigits_natDigits (n : Nat) : decodeDigits (natDigits n) = n := by
  unfold natDigits
  rw [decodeDigits_natDigitsFuel _ _ _ (Nat.lt_succ_self n)]
  simp [decodeDigits]

/-- Rounding to the nearest integer is off by at most one half. -/
theorem roundHalfEven_bound (n d : Nat) (hd : 0 < d) :
    2 * (roundHalfEven n d * d) ≤ 2 * n + d ∧ 2 * n ≤ 2 * (roundHalfEven n d * d) + d := by
  have hn := Nat.div_add_mod n d
  have hr := Nat.mod_lt n hd
  have h1 : (n / d + 1) * d = d * (n / d) + d := by ring
  have h0 : n / d * d = d * (n / d) := by ring
  unfold roundHalfEven
  dsimp only
  generalize d * (n / d) = X at *
  split
  · rw [h0]; omega
  · split
    · rw [h1]; omega
    · split
      · rw [h0]; omega
      · rw [h1]; omega

theorem roundHalfEven_rat (n d : Nat) (hd : 0 < d) :
    |(roundHalfEven n d : ℚ) - (n : ℚ) / d| ≤ 1 / 2 := by
  obtain ⟨h1, h2⟩ := roundHalfEven_bound n d hd
  have hd' : (0 : ℚ) < d := by exact_mod_cast hd
  have h1' : (2 : ℚ) * (roundHalfEven n d * d) ≤ 2 * n + d := by exact_mod_cast h1
  have h2' : (2 : ℚ) * n ≤ 2 * (roundHalfEven n d * d) + d := by exact_mod_cast h2
  rw [abs_le]
  constructor
  · rw [le_sub_iff_add_le, ← sub_eq_neg_add, sub_le_iff_le_add, div_le_iff₀ hd']
    nlinarith
  · rw [sub_le_iff_le_add, ← sub_le_iff_le_add', le_div_iff₀ hd']
    nlinarith

theorem scaleByPow2_pos (n d : Nat) (e : Int) (hd : 0 < d) : 0 < (scaleByPow2 n d e).2 := by
  unfold scaleByPow2
  split
  · exact Nat.mul_pos hd (Nat.pow_pos (by decide))
  · exact hd

theorem scaleByPow2_rat (n d : Nat) (e : Int) :
    ((scaleByPow2 n d e).1 : ℚ) / (scaleByPow2 n d e).2 = (n : ℚ) / d / (2 : ℚ) ^ e := by
  unfold scaleByPow2
  split
  · rename_i k
    simp only [Int.ofNat_eq_coe, zpow_natCast]
    push_cast
    rw [div_div]
  · rename_i k
    simp only [zpow_negSucc]
    push_cast
    rw [div_inv_eq_mul]
    ring

/-- When `n / d` lies exactly between two integers, the one chosen is even. -/
theorem roundHalfEven_tie_even (n d : Nat) (hd : 0 < d)
    (h : 2 * (roundHalfEven n d * d) = 2 * n + d ∨ 2 * n = 2 * (roundHalfEven n d * d) + d) :
    roundHalfEven n d % 2 = 0 := by
  have hn := Nat.div_add_mod n d
  have hr := Nat.mod_lt n hd
  have h1 : (n / d + 1) * d = d * (n / d) + d := by ring
  have h0 : n / d * d = d * (n / d) := by ring
  unfold roundHalfEven at h ⊢
  dsimp only at h ⊢
  generalize d * (n / d) = X at *
  split
  · rename_i hlt
    rw [if_pos hlt, h0] at h
    omega
  · rename_i hlt
    rw [if_neg hlt] at h
    split
    · rename_i hgt
      rw [if_pos hgt, h1] at h
      omega
    · rename_i hgt
      split
      · assumption
      · omega

theorem roundHalfEven_rat_tie (n d : Nat) (hd : 0 < d)
    (h : |(roundHalfEven n d : ℚ) - (n : ℚ) / d| = 1 / 2) : roundHalfEven n d % 2 = 0 := by
  have hd' : (0 : ℚ) < d := by exact_mod_cast hd
  have hne : (d : ℚ) ≠ 0 := hd'.ne.symm
  apply roundHalfEven_tie_even n d hd
  rcases (abs_eq (by norm_num : (0 : ℚ) ≤ 1 / 2)).mp h with h | h
  · left
    have e : (2 : ℚ) * ((roundHalfEven n d : ℚ) * d) = 2 * n + d := by
      have : (roundHalfEven n d : ℚ) = (n : ℚ) / d + 1 / 2 := by linarith
      rw [this]
      field_simp
      ring
    exact_mod_cast e
  · right
    have e : (2 : ℚ) * n = 2 * ((roundHalfEven n d : ℚ) * d) + d := by
      have : (roundHalfEven n d : ℚ) = (n : ℚ) / d - 1 / 2 := by linarith
      rw [this]
      field_simp
      ring
    exact_mod_cast e

/-- The millionths `%.6f` prints are the even ones when the value printed lies exactly
between two of them. -/
theorem microUnits_tie_even (m : Nat) (e : Int)
    (h : |(microUnits m e : ℚ) / 10 ^ 6 - (m : ℚ) * (2 : ℚ) ^ e| = 5 / 10 ^ 7) :
    microUnits m e % 2 = 0 := by
  unfold microUnits at h ⊢
  dsimp only at h ⊢
  have hpos := scaleByPow2_pos (m * 10 ^ 6) 1 (-e) (by decide)
  have key : ((scaleByPow2 (m * 10 ^ 6) 1 (-e)).1 : ℚ) / (scaleByPow2 (m * 10 ^ 6) 1 (-e)).2
      = (m : ℚ) * (2 : ℚ) ^ e * 10 ^ 6 := by
    rw [scaleByPow2_rat, zpow_neg]
    push_cast
    rw [div_one, div_inv_eq_mul]
    ring
  apply roundHalfEven_rat_tie _ _ hpos
  rw [key]
  generalize (roundHalfEven (scaleByPow2 (m * 10 ^ 6) 1 (-e)).1
    (scaleByPow2 (m * 10 ^ 6) 1 (-e)).2 : ℚ) = U at h ⊢
  generalize (m : ℚ) * (2 : ℚ) ^ e = Y at h ⊢
  have e1 : U - Y * 10 ^ 6 = (U / 10 ^ 6 - Y) * 10 ^ 6 := by ring
  rw [e1, abs_mul, h]
  norm_num

/-- The millionths `%.6f` prints are within half a millionth of the value printed. -/
theorem microUnits_bound (m : Nat) (e : Int) :
    |(microUnits m e : ℚ) / 10 ^ 6 - (m : ℚ) * (2 : ℚ) ^ e| ≤ 5 / 10 ^ 7 := by
  unfold microUnits
  dsimp only
  have hpos := scaleByPow2_pos (m * 10 ^ 6) 1 (-e) (by decide)
  have hb := roundHalfEven_rat (scaleByPow2 (m * 10 ^ 6) 1 (-e)).1 _ hpos
  rw [scaleByPow2_rat] at hb
  have h2 : ((2 : ℚ) ^ (-e)) = ((2 : ℚ) ^ e)⁻¹ := zpow_neg 2 e
  rw [h2] at hb
  push_cast at hb
  rw [div_one, div_inv_eq_mul] at hb
  rw [abs_le] at hb ⊢
  constructor <;> linarith [hb.1, hb.2]

theorem log2Fuel_spec (fuel n : Nat) (hn : 0 < n) (hf : n ≤ fuel) :
    2 ^ log2Fuel fuel n ≤ n ∧ n < 2 ^ (log2Fuel fuel n + 1) := by
  induction fuel generalizing n with
  | zero => omega
  | succ fuel ih =>
    unfold log2Fuel
    split
    · rename_i h2
      obtain ⟨h1, h3⟩ := ih (n / 2) (by omega) (by omega)
      rw [pow_succ] at h3 ⊢
      rw [pow_succ]
      constructor <;> omega
    · simp
      omega

/-- The binary logarithm brackets its argument. -/
theorem ilog2_spec (n : Nat) (hn : 0 < n) : 2 ^ ilog2 n ≤ n ∧ n < 2 ^ (ilog2 n + 1) :=
  log2Fuel_spec n n hn (Nat.le_refl n)

/-- The binary logarithm of a fraction is a lower bound of it. -/
theorem floorLog2Ratio_le (n d : Nat) (hn : 0 < n) (hd : 0 < d) :
    (2 : ℚ) ^ floorLog2Ratio n d ≤ (n : ℚ) / d := by
  have hd' : (0 : ℚ) < d := by exact_mod_cast hd
  unfold floorLog2Ratio
  dsimp only
  split
  · rename_i h
    have hpos := scaleByPow2_pos n d ((ilog2 n : Int) - (ilog2 d : Int)) hd
    have hr := scaleByPow2_rat n d ((ilog2 n : Int) - (ilog2 d : Int))
    have h1 : (1 : ℚ) ≤ ((scaleByPow2 n d ((ilog2 n : Int) - (ilog2 d : Int))).1 : ℚ)
        / (scaleByPow2 n d ((ilog2 n : Int) - (ilog2 d : Int))).2 := by
      rw [one_le_div (by exact_mod_cast hpos)]
      exact_mod_cast h
    rw [hr] at h1
    have h2 : (0 : ℚ) < (2 : ℚ) ^ ((ilog2 n : Int) - (ilog2 d : Int)) := by positivity
    rwa [one_le_div h2] at h1
  · obtain ⟨hn1, _⟩ := ilog2_spec n hn
    obtain ⟨_, hd2⟩ := ilog2_spec d hd
    have hn1' : (2 : ℚ) ^ ilog2 n ≤ n := by exact_mod_cast hn1
    have hd2' : (d : ℚ) < 2 ^ (ilog2 d + 1) := by exact_mod_cast hd2
    rw [le_div_iff₀ hd']
    have e1 : (2 : ℚ) ^ ((ilog2 n : Int) - (ilog2 d : Int) - 1)
        = 2 ^ ilog2 n / 2 ^ (ilog2 d + 1) := by
      rw [sub_sub, zpow_sub₀ (by norm_num), zpow_natCast]
      congr 1
      have : ((ilog2 d : Int) + 1) = ((ilog2 d + 1 : Nat) : Int) := by push_cast; rfl
      rw [this, zpow_natCast]
    rw [e1, div_mul_eq_mul_div, div_le_iff₀ (by positivity)]
    have h3 : (0 : ℚ) < 2 ^ ilog2 n := by positivity
    nlinarith

/-- Rounding a positive fraction to binary64, when it does not overflow, moves it by at most
`2 ^ (-53)` of itself, or by `2 ^ (-1075)` in the subnormal range. -/
theorem roundToFloat64_error (n d : Nat) (hn : 0 < n) (hd : 0 < d) (neg s : Bool)
    (m : Nat) (e : Int) (h : roundToFloat64 neg n d = .fin s m e) :
    s = neg ∧
    |(m : ℚ) * (2 : ℚ) ^ e - (n : ℚ) / d| ≤ (n : ℚ) / d * (2 : ℚ) ^ (-53 : Int)
      + (2 : ℚ) ^ (-1075 : Int) := by
  have hd' : (0 : ℚ) < d := by exact_mod_cast hd
  have hn' : (0 : ℚ) < n := by exact_mod_cast hn
  have hfl := floorLog2Ratio_le n d hn hd
  unfold roundToFloat64 at h
  rw [if_neg (by omega)] at h
  dsimp only at h
  generalize hE : max (floorLog2Ratio n d - 52) (-1074) = E at h
  have hpos := scaleByPow2_pos n d E hd
  have hb := roundHalfEven_rat (scaleByPow2 n d E).1 _ hpos
  rw [scaleByPow2_rat] at hb
  have h2E : (0 : ℚ) < (2 : ℚ) ^ E := by positivity
  -- the rounded value, before normalisation, is within half a unit in the last place
  have key : ∀ M : Nat, ∀ F : Int, (M : ℚ) * (2 : ℚ) ^ F
      = (roundHalfEven (scaleByPow2 n d E).1 (scaleByPow2 n d E).2 : ℚ) * (2 : ℚ) ^ E →
      |(M : ℚ) * (2 : ℚ) ^ F - (n : ℚ) / d| ≤ (n : ℚ) / d * (2 : ℚ) ^ (-53 : Int)
        + (2 : ℚ) ^ (-1075 : Int) := by
    intro M F hMF
    rw [hMF]
    have hhalf : |(roundHalfEven (scaleByPow2 n d E).1 (scaleByPow2 n d E).2 : ℚ) * (2 : ℚ) ^ E
        - (n : ℚ) / d| ≤ (2 : ℚ) ^ E / 2 := by
      have : (roundHalfEven (scaleByPow2 n d E).1 (scaleByPow2 n d E).2 : ℚ) * (2 : ℚ) ^ E
          - (n : ℚ) / d
          = ((roundHalfEven (scaleByPow2 n d E).1 (scaleByPow2 n d E).2 : ℚ)
              - (n : ℚ) / d / (2 : ℚ) ^ E) * (2 : ℚ) ^ E := by
        field_simp
        ring
      rw [this, abs_mul, abs_of_pos h2E]
      calc _ ≤ 1 / 2 * (2 : ℚ) ^ E := mul_le_mul_of_nonneg_right hb h2E.le
        _ = (2 : ℚ) ^ E / 2 := by ring
    refine hhalf.trans ?_
    have hEcases : E = floorLog2Ratio n d - 52 ∨ E = -1074 := by
      rw [← hE]
      rcases max_cases (floorLog2Ratio n d - 52) (-1074 : Int) with h | h
      · exact Or.inl h.1
      · exact Or.inr h.1
    have hq : (0 : ℚ) ≤ (n : ℚ) / d * (2 : ℚ) ^ (-53 : Int) := by positivity
    have hs : (0 : ℚ) ≤ (2 : ℚ) ^ (-1075 : Int) := by positivity
    rcases hEcases with h | h
    · have : (2 : ℚ) ^ E / 2 = (2 : ℚ) ^ floorLog2Ratio n d * (2 : ℚ) ^ (-53 : Int) := by
        rw [h, zpow_sub₀ (by norm_num), zpow_neg]
        norm_num
        ring
      rw [this]
      have hz : (0 : ℚ) ≤ (2 : ℚ) ^ (-53 : Int) := by positivity
      nlinarith [mul_le_mul_of_nonneg_right hfl hz]
    · have : (2 : ℚ) ^ E / 2 = (2 : ℚ) ^ (-1075 : Int) := by
        rw [h]
        have : (-1075 : Int) = -1074 - 1 := by norm_num
        rw [this, zpow_sub₀ (by norm_num)]
        simp
      rw [this]
      linarith
  split at h
  · rename_i hm
    split at h
    · cases h
    · simp only [Float64.fin.injEq] at h
      obtain ⟨h1, h2, h3⟩ := h
      refine ⟨h1.symm, key m e ?_⟩
      rw [← h2, ← h3, hm, zpow_add₀ (by norm_num)]
      push_cast
      ring
  · split at h
    · cases h
    · simp only [Float64.fin.injEq] at h
      obtain ⟨h1, h2, h3⟩ := h
      refine ⟨h1.symm, key m e ?_⟩
      rw [← h2, ← h3]

theorem scaleByPow2_fst_pos (n d : Nat) (e : Int) (hn : 0 < n) : 0 < (scaleByPow2 n d e).1 := by
  unfold scaleByPow2
  split
  · exact hn
  · exact Nat.mul_pos hn (Nat.pow_pos (by decide))

/-- Rounding to binary64 gives a finite number or an infinity, of the sign asked for. -/
theorem roundToFloat64_cases (neg : Bool) (n d : Nat) :
    roundToFloat64 neg n d = .inf neg ∨ ∃ m e, roundToFloat64 neg n d = .fin neg m e := by
  unfold roundToFloat64
  dsimp only
  split
  · exact Or.inr ⟨_, _, rfl⟩
  · split
    · split
      · exact Or.inl rfl
      · exact Or.inr ⟨_, _, rfl⟩
    · split
      · exact Or.inl rfl
      · exact Or.inr ⟨_, _, rfl⟩

/-- A `float64` that denotes a rational above zero is finite, positive and non-zero. -/
theorem toRat_pos (x : Float64) (a : ℚ) (h : x.toRat = some a) (ha : 0 < a) :
    ∃ m e, x = .fin false m e ∧ 0 < m ∧ a = (m : ℚ) * (2 : ℚ) ^ e := by
  cases x with
  | nan => simp [Float64.toRat] at h
  | inf s => simp [Float64.toRat] at h
  | fin s m e =>
    simp only [Float64.toRat, Option.some.injEq] at h
    have h2 : (0 : ℚ) < (2 : ℚ) ^ e := by positivity
    have hm : (0 : ℚ) ≤ (m : ℚ) := by positivity
    cases s
    · simp only [Bool.false_eq_true, if_false, one_mul] at h
      refine ⟨m, e, rfl, ?_, h.symm⟩
      rcases Nat.eq_zero_or_pos m with h0 | h0
      · subst h0
        simp at h
        linarith
      · exact h0
    · simp only [if_true] at h
      have : a ≤ 0 := by
        rw [← h]
        nlinarith [mul_nonneg hm h2.le]
      linarith

/-- The quotient of two positive finite numbers is the correctly rounded exact quotient. -/
theorem div_pos_error (ma mb : Nat) (ea eb : Int) (ha : 0 < ma) (hb : 0 < mb) :
    Float64.div (.fin false ma ea) (.fin false mb eb) = .inf false ∨
    ∃ m e, Float64.div (.fin false ma ea) (.fin false mb eb) = .fin false m e ∧
      |(m : ℚ) * (2 : ℚ) ^ e - (ma : ℚ) * (2 : ℚ) ^ ea / ((mb : ℚ) * (2 : ℚ) ^ eb)|
        ≤ (ma : ℚ) * (2 : ℚ) ^ ea / ((mb : ℚ) * (2 : ℚ) ^ eb) * (2 : ℚ) ^ (-53 : Int)
          + (2 : ℚ) ^ (-1075 : Int) := by
  have hdiv : Float64.div (.fin false ma ea) (.fin false mb eb) =
      roundToFloat64 false
        ((scaleByPow2 ma 1 (-ea)).1 * (scaleByPow2 mb 1 (-eb)).2)
        ((scaleByPow2 ma 1 (-ea)).2 * (scaleByPow2 mb 1 (-eb)).1) := by
    simp [Float64.div, Nat.pos_iff_ne_zero.mp hb]
  rw [hdiv]
  have hN : 0 < (scaleByPow2 ma 1 (-ea)).1 * (scaleByPow2 mb 1 (-eb)).2 :=
    Nat.mul_pos (scaleByPow2_fst_pos _ _ _ ha) (scaleByPow2_pos _ _ _ (by decide))
  have hD : 0 < (scaleByPow2 ma 1 (-ea)).2 * (scaleByPow2 mb 1 (-eb)).1 :=
    Nat.mul_pos (scaleByPow2_pos _ _ _ (by decide)) (scaleByPow2_fst_pos _ _ _ hb)
  have hA := scaleByPow2_rat ma 1 (-ea)
  have hB := scaleByPow2_rat mb 1 (-eb)
  have hA2 : (0 : ℚ) < ((scaleByPow2 ma 1 (-ea)).2 : ℚ) := by
    exact_mod_cast scaleByPow2_pos ma 1 (-ea) (by decide)
  have hB2 : (0 : ℚ) < ((scaleByPow2 mb 1 (-eb)).2 : ℚ) := by
    exact_mod_cast scaleByPow2_pos mb 1 (-eb) (by decide)
  have hB1 : (0 : ℚ) < ((scaleByPow2 mb 1 (-eb)).1 : ℚ) := by
    exact_mod_cast scaleByPow2_fst_pos mb 1 (-eb) hb
  have hq : (((scaleByPow2 ma 1 (-ea)).1 * (scaleByPow2 mb 1 (-eb)).2 : Nat) : ℚ)
      / ((scaleByPow2 ma 1 (-ea)).2 * (scaleByPow2 mb 1 (-eb)).1 : Nat)
      = (ma : ℚ) * (2 : ℚ) ^ ea / ((mb : ℚ) * (2 : ℚ) ^ eb) := by
    have e1 : (ma : ℚ) * (2 : ℚ) ^ ea = ((scaleByPow2 ma 1 (-ea)).1 : ℚ)
        / (scaleByPow2 ma 1 (-ea)).2 := by
      rw [hA, zpow_neg]
      simp
    have e2 : (mb : ℚ) * (2 : ℚ) ^ eb = ((scaleByPow2 mb 1 (-eb)).1 : ℚ)
        / (scaleByPow2 mb 1 (-eb)).2 := by
      rw [hB, zpow_neg]
      simp
    rw [e1, e2]
    push_cast
    field_simp
  rcases roundToFloat64_cases false
      ((scaleByPow2 ma 1 (-ea)).1 * (scaleByPow2 mb 1 (-eb)).2)
      ((scaleByPow2 ma 1 (-ea)).2 * (scaleByPow2 mb 1 (-eb)).1) with h | ⟨m, e, h⟩
  · exact Or.inl h
  · refine Or.inr ⟨m, e, h, ?_⟩
    have := (roundToFloat64_error _ _ hN hD false false m e h).2
    rwa [hq] at this

/-- C6 as stated fails, in two ways.  With the quote 0.075 and the price 50000 the order
quantity is `0.000002`, and `0.000002 * 50000` is further from the quote than
`50000 * 0.0000005`: the binary64 quotient lies above the midpoint 0.0000015 while the exact
quotient lies below it.  With the largest finite amount and the price 0.5 the binary64
quotient overflows and the quantity is `+Inf`, which has no fractional digits. -/
theorem quantity_tolerance_counterexample :
    (f0075.toRat = some (5404319552844595 / 2 ^ 56) ∧ f50000.toRat = some 50000 ∧
      (convertIDRToUSD smallQuoteWorld f1500000).1 = .ok f0075 ∧
      ParseFloat "50000" = .ok f50000 ∧
      sprintfF6 (Float64.div f0075 f50000) = "0.000002" ∧
      buyCrypto smallQuoteWorld f0075 = (.ok "12345",
        [Event.buyCrypto f0075, Event.tickerGet, Event.orderPost "0.000002"]) ∧
      ¬ (|(2 : ℚ) / 10 ^ 6 * 50000 - 5404319552844595 / 2 ^ 56| ≤ 50000 * (5 / 10 ^ 7))) ∧
    (maxFloat64.isPos = true ∧ fHalf.isPos = true ∧
      sprintfF6 (Float64.div maxFloat64 fHalf) = "+Inf") := by
  refine ⟨⟨?_, ?_, rfl, rfl, rfl, rfl, ?_⟩, rfl, rfl, by decide!⟩
  · norm_num [Float64.toRat, f0075]
  · norm_num [Float64.toRat, f50000]
  · norm_num [abs_le]

/-- C6, amended: for an amount `a > 0` and a price `p > 0`, `buyCrypto` posts one order.  If
the binary64 quotient of `a` by `p` overflows, its quantity is `+Inf`.  Otherwise the quotient
`x` is within `a / p * 2 ^ (-53) + 2 ^ (-1075)` of `a / p`, and the quantity is `x` rounded to
the nearest millionth `u`, the even one when `x` lies exactly between two millionths, written
as the integer part of `u`, a point and exactly six digits, so that `|quantity * p - a| ≤ p * 0.0000005 + a * 2 ^ (-53) +
p * 2 ^ (-1075)`. -/
theorem buyCrypto_quantity (w : World) (usd : Float64) (resp : Response) (s : String)
    (p : Float64) (a b : ℚ) (ht : w.ticker = .ok resp)
    (hs : mapIndex (jsonUnmarshal resp.body) "price" = some (.str s))
    (hp : ParseFloat s = .ok p)
    (ha : usd.toRat = some a) (hb : p.toRat = some b) (ha0 : 0 < a) (hb0 : 0 < b) :
    (buyCrypto w usd).2 = [Event.buyCrypto usd, Event.tickerGet,
      Event.orderPost (sprintfF6 (Float64.div usd p))] ∧
    ((Float64.div usd p = .inf false ∧ sprintfF6 (Float64.div usd p) = "+Inf") ∨
     ∃ (u : Nat) (x : ℚ), (Float64.div usd p).toRat = some x ∧
      |x - a / b| ≤ a / b * (2 : ℚ) ^ (-53 : Int) + (2 : ℚ) ^ (-1075 : Int) ∧
      |(u : ℚ) / 10 ^ 6 - x| ≤ 5 / 10 ^ 7 ∧
      (|(u : ℚ) / 10 ^ 6 - x| = 5 / 10 ^ 7 → u % 2 = 0) ∧
      sprintfF6 (Float64.div usd p) = fixed6 u ∧
      (sprintfF6 (Float64.div usd p)).toList
        = natDigits (u / 10 ^ 6) ++ '.' :: fixedDigits 6 (u % 10 ^ 6) ∧
      (fixedDigits 6 (u % 10 ^ 6)).length = 6 ∧
      decodeDigits (natDigits (u / 10 ^ 6)) = u / 10 ^ 6 ∧
      decodeDigits (fixedDigits 6 (u % 10 ^ 6)) = u % 10 ^ 6 ∧
      |(u : ℚ) / 10 ^ 6 * b - a| ≤
        b * (5 / 10 ^ 7) + a * (2 : ℚ) ^ (-53 : Int) + b * (2 : ℚ) ^ (-1075 : Int)) := by
  obtain ⟨ma, ea, rfl, hma, rfl⟩ := toRat_pos usd a ha ha0
  obtain ⟨mb, eb, rfl, hmb, rfl⟩ := toRat_pos p b hb hb0
  refine ⟨(buyCrypto_with_price w _ resp s _ ht hs hp).1, ?_⟩
  rcases div_pos_error ma mb ea eb hma hmb with h | ⟨m, e, h, herr⟩
  · left
    rw [h]
    exact ⟨rfl, rfl⟩
  · right
    rw [h]
    have hu := microUnits_bound m e
    refine ⟨microUnits m e, (m : ℚ) * (2 : ℚ) ^ e, ?_, herr, hu, microUnits_tie_even m e,
      rfl, rfl,
      fixedDigits_length _ _, decodeDigits_natDigits _, ?_, ?_⟩
    · simp [Float64.toRat]
    · rw [decodeDigits_fixedDigits]
      exact Nat.mod_mod _ _
    · have hbpos : (0 : ℚ) < (mb : ℚ) * (2 : ℚ) ^ eb := hb0
      have e1 : (microUnits m e : ℚ) / 10 ^ 6 * ((mb : ℚ) * (2 : ℚ) ^ eb)
            - (ma : ℚ) * (2 : ℚ) ^ ea
          = ((microUnits m e : ℚ) / 10 ^ 6 - (m : ℚ) * (2 : ℚ) ^ e) * ((mb : ℚ) * (2 : ℚ) ^ eb)
            + ((m : ℚ) * (2 : ℚ) ^ e - (ma : ℚ) * (2 : ℚ) ^ ea / ((mb : ℚ) * (2 : ℚ) ^ eb))
              * ((mb : ℚ) * (2 : ℚ) ^ eb) := by
        field_simp
        ring
      rw [e1]
      refine (abs_add _ _).trans ?_
      have habs : ∀ X : ℚ, |X * ((mb : ℚ) * (2 : ℚ) ^ eb)| = |X| * ((mb : ℚ) * (2 : ℚ) ^ eb) :=
        fun X => by rw [abs_mul, abs_of_pos hbpos]
      rw [habs, habs]
      have h1 := mul_le_mul_of_nonneg_right hu hbpos.le
      have h2 := mul_le_mul_of_nonneg_right herr hbpos.le
      have e2 : ∀ c1 c2 : ℚ,
          ((ma : ℚ) * (2 : ℚ) ^ ea / ((mb : ℚ) * (2 : ℚ) ^ eb) * c1 + c2)
            * ((mb : ℚ) * (2 : ℚ) ^ eb)
          = (ma : ℚ) * (2 : ℚ) ^ ea * c1 + (mb : ℚ) * (2 : ℚ) ^ eb * c2 := by
        intro c1 c2
        have hne := hbpos.ne.symm
        field_simp
        ring
      rw [e2] at h2
      linarith

/-- C6 amended, at the example: the amount 95 and the price 50000 give the quantity
`0.001900`; and at a tie: the quotient 1/128 = 0.0078125 is printed `0.007812`, the even
neighbour. -/
theorem buyCrypto_quantity_witness :
    f95.toRat = some 95 ∧ f50000.toRat = some 50000 ∧
    (buyCrypto exampleWorld f95).2
      = [Event.buyCrypto f95, Event.tickerGet, Event.orderPost "0.001900"] ∧
    sprintfF6 (Float64.div (.fin false 1 0) (.fin false 128 0)) = "0.007812" :=
  have h95 : f95.toRat = some 95 := by norm_num [Float64.toRat, f95]
  have h50000 : f50000.toRat = some 50000 := by norm_num [Float64.toRat, f50000]
  ⟨h95, h50000, (buyCrypto_quantity exampleWorld f95
    ⟨200, some (.obj [("symbol", .str "BTCUSDT"), ("price", .str "50000")])⟩ "50000" f50000
    95 50000 rfl rfl rfl h95 h50000 (by norm_num) (by norm_num)).1, rfl⟩

end PaymentGateway
